import Mathlib

/-!
Verification of the transfer-processing and account-ledger core of the
`sepa-instant-transfer-brl` repository, against its natural-language
specification.

Python strings are modelled as `List Char` (one entry per Unicode scalar),
Python `Decimal` values as `ℚ` together with the special values `NaN` and
`±Infinity`, and the SQLAlchemy session as an explicit record of account and
transaction lists.  Operations that can raise return `Except`, carrying the
session state at raise time so that "no mutation on failure" is a provable
statement rather than a modelling artefact.
-/

namespace SepaBrl

/-! ## Character helpers (Python `str` primitives) -/

/-- Value of an ASCII digit character, as used by Python `int(c)`. -/
def digitVal (c : Char) : Nat := c.toNat - '0'.toNat

/-- `re.sub(r'[^0-9]', '', s)`: keep only the ASCII digits of `s`. -/
def onlyDigits (s : List Char) : List Char := s.filter Char.isDigit

/-- `s == s[0] * len(s)`: every character equals the first one. -/
def allSame : List Char → Bool
  | [] => true
  | c :: rest => rest.all (fun d => d = c)

/-! ## `app/utils/validators.py` -/

/-- `0 if remainder < 2 else 11 - remainder`, the MOD-11 check-digit rule. -/
def checkFrom (r : Nat) : Nat := if r < 2 then 0 else 11 - r

/-- Weighted digit sum `sum(int(s[i]) * w[i])`, the weights zipped positionally. -/
def weightedSum (ds : List Char) (ws : List Nat) : Nat :=
  (List.zipWith (fun c w => digitVal c * w) ds ws).sum

/-- `validate_cpf` from `app/utils/validators.py`: strip non-digits, require 11
digits, reject a constant string, then check the two MOD-11 check digits
(weights 10..2 over positions 0..8, then 11..2 over positions 0..9). -/
def validate_cpf (s : List Char) : Bool :=
  if s = [] then false
  else
    let cpf := onlyDigits s
    if cpf.length ≠ 11 then false
    else if allSame cpf then false
    else
      let r1 := weightedSum cpf [10, 9, 8, 7, 6, 5, 4, 3, 2] % 11
      if digitVal (cpf.getD 9 '0') ≠ checkFrom r1 then false
      else
        let r2 := weightedSum cpf [11, 10, 9, 8, 7, 6, 5, 4, 3, 2] % 11
        digitVal (cpf.getD 10 '0') = checkFrom r2

/-- `validate_cnpj` from `app/utils/validators.py`: 14 digits, not all equal,
two MOD-11 check digits with the CNPJ weight vectors. -/
def validate_cnpj (s : List Char) : Bool :=
  if s = [] then false
  else
    let cnpj := onlyDigits s
    if cnpj.length ≠ 14 then false
    else if allSame cnpj then false
    else
      let r1 := weightedSum cnpj [5, 4, 3, 2, 9, 8, 7, 6, 5, 4, 3, 2] % 11
      if digitVal (cnpj.getD 12 '0') ≠ checkFrom r1 then false
      else
        let r2 := weightedSum cnpj [6, 5, 4, 3, 2, 9, 8, 7, 6, 5, 4, 3, 2] % 11
        digitVal (cnpj.getD 13 '0') = checkFrom r2

/-- Character class `[a-zA-Z0-9._%+-]` of the e-mail regex's local part. -/
def emailLocalChar (c : Char) : Bool :=
  c.isAlpha || c.isDigit || c = '.' || c = '_' || c = '%' || c = '+' || c = '-'

/-- Character class `[a-zA-Z0-9.-]` of the e-mail regex's domain part. -/
def emailDomainChar (c : Char) : Bool :=
  c.isAlpha || c.isDigit || c = '.' || c = '-'

/-- Match of `[a-zA-Z0-9.-]+\.[a-zA-Z]{2,}` against the whole of `r`: some
split `r = A ++ '.' :: B` with `A` a nonempty run of domain characters and `B`
at least two letters.  The split search realises the regex's backtracking. -/
def emailDomainMatch (r : List Char) : Bool :=
  (List.range r.length).any fun i =>
    0 < i && (r.take i).all emailDomainChar && r.getD i ' ' = '.'
      && (r.drop (i + 1)).all Char.isAlpha && 2 ≤ r.length - (i + 1)

/-- Anchored match of `^[a-zA-Z0-9._%+-]+@[a-zA-Z0-9.-]+\.[a-zA-Z]{2,}`
consuming all of `s`.  `'@'` is outside the local-part class, so the greedy
`+` deterministically takes the maximal run before the `'@'`. -/
def emailCore (s : List Char) : Bool :=
  let loc := s.takeWhile emailLocalChar
  match s.drop loc.length with
  | '@' :: rest => !loc.isEmpty && emailDomainMatch rest
  | _ => false

/-- Python's `$` anchor matches at the end of the string or just before one
trailing `'\n'`; `pyDollar m s` is a full match of `m` under that rule. -/
def pyDollar (m : List Char → Bool) (s : List Char) : Bool :=
  m s || (s.getLast? = some '\n' && m s.dropLast)

/-- `re.match(r'^[a-zA-Z0-9._%+-]+@[a-zA-Z0-9.-]+\.[a-zA-Z]{2,}$', s)`. -/
def emailMatch (s : List Char) : Bool := pyDollar emailCore s

/-- Anchored match of `^\+55\d{10,11}` consuming all of `s`.  Python's `\d`
is Unicode-aware; the ASCII digits modelled here are the only ones a payment
key would carry. -/
def phoneCore (s : List Char) : Bool :=
  match s with
  | '+' :: '5' :: '5' :: ds => ds.all Char.isDigit && (ds.length = 10 || ds.length = 11)
  | _ => false

/-- `re.match(r'^\+55\d{10,11}$', s)`. -/
def phoneMatch (s : List Char) : Bool := pyDollar phoneCore s

/-- Character class `[0-9a-f]` of the UUID regex. -/
def isHexLower (c : Char) : Bool := c.isDigit || ('a' ≤ c && c ≤ 'f')

/-- Anchored match of the hyphenated-UUID regex
`^[0-9a-f]{8}-[0-9a-f]{4}-[0-9a-f]{4}-[0-9a-f]{4}-[0-9a-f]{12}` consuming all
of `s`: length 36, hyphens at offsets 8, 13, 18, 23, lowercase hex elsewhere. -/
def uuidCore (s : List Char) : Bool :=
  s.length = 36 && (List.range 36).all fun i =>
    if i = 8 || i = 13 || i = 18 || i = 23 then s.getD i ' ' = '-'
    else isHexLower (s.getD i ' ')

/-- `re.match(uuid_pattern, s.lower())`; `Char.toLower` covers the ASCII
range, and no non-ASCII character lowercases into `[0-9a-f-]`. -/
def uuidMatch (s : List Char) : Bool := pyDollar uuidCore (s.map Char.toLower)

/-- `validate_pix_key` from `app/utils/validators.py`: empty key or empty
type is rejected, then they dispatch on the five key types, with a final
`return False` for any other type string. -/
def validate_pix_key (key ktype : List Char) : Bool :=
  if key = [] || ktype = [] then false
  else if ktype = "cpf".data then validate_cpf key
  else if ktype = "cnpj".data then validate_cnpj key
  else if ktype = "email".data then emailMatch key
  else if ktype = "phone".data then phoneMatch key
  else if ktype = "random".data then uuidMatch key
  else false

/-! ## Python runtime primitives used by `app/utils/currency.py` -/

/-- Python `Decimal` values: finite numbers (modelled by their rational
value; `Decimal('5.00') == Decimal('5')`, so the stored exponent is
irrelevant to every comparison made by this code base), NaN, and signed
infinity. -/
inductive PyDec where
  | num : ℚ → PyDec
  | nan : PyDec
  | inf : Bool → PyDec
deriving DecidableEq

/-- The one exception the currency code can leak: `decimal.InvalidOperation`
raised by the `Decimal` constructor.  It derives from `ArithmeticError`, not
from `ValueError`, so `except (ValueError, TypeError)` does not catch it. -/
inductive PyExc where
  | invalidOperation : PyExc
deriving DecidableEq

instance {ε α : Type} [DecidableEq ε] [DecidableEq α] : DecidableEq (Except ε α) :=
  fun x y =>
    match x, y with
    | .ok a, .ok b => decidable_of_iff (a = b) (by simp)
    | .error a, .error b => decidable_of_iff (a = b) (by simp)
    | .ok _, .error _ => isFalse (by simp)
    | .error _, .ok _ => isFalse (by simp)

/-- Numeric value of a digit string, most significant first. -/
def listVal (ds : List Char) : Nat := ds.foldl (fun a c => 10 * a + digitVal c) 0

/-- The ASCII digit character for `d % 10`. -/
def digitChar : Nat → Char
  | 0 => '0' | 1 => '1' | 2 => '2' | 3 => '3' | 4 => '4'
  | 5 => '5' | 6 => '6' | 7 => '7' | 8 => '8' | 9 => '9'
  | _ + 10 => '0'

/-- Decimal digits of `n`, most significant first, with explicit fuel
bounding the recursion depth (any fuel `f` with `n < 10 ^ f` yields the
digits; `natChars` instantiates it). -/
def natCharsAux : Nat → Nat → List Char
  | 0, _ => []
  | f + 1, n =>
    if n < 10 then [digitChar n]
    else natCharsAux f (n / 10) ++ [digitChar (n % 10)]

/-- `str(n)` for a natural number: its decimal digits, `"0"` for zero. -/
def natChars (n : Nat) : List Char := natCharsAux (n + 1) n

/-- Split a reversed digit list into groups of three, least significant
group first. -/
def chunk3 : List Char → List (List Char)
  | [] => []
  | [a] => [[a]]
  | [a, b] => [[a, b]]
  | a :: b :: c :: rest => [a, b, c] :: chunk3 rest

/-- Join groups with `','` separators. -/
def joinComma : List (List Char) → List Char
  | [] => []
  | [g] => g
  | g :: g' :: gs => g ++ ',' :: joinComma (g' :: gs)

/-- Thousands grouping of Python's `format(..., ',')`: commas every three
digits counted from the right. -/
def groupThousands (s : List Char) : List Char :=
  (joinComma (chunk3 s.reverse)).reverse

/-- Round to the nearest integer, ties to the even integer (the rounding
both of IEEE-754 binary64 and of Python's float formatting). -/
def roundHalfEven (q : ℚ) : ℤ :=
  if q - ⌊q⌋ < 1 / 2 then ⌊q⌋
  else if 1 / 2 < q - ⌊q⌋ then ⌊q⌋ + 1
  else if 2 ∣ ⌊q⌋ then ⌊q⌋ else ⌊q⌋ + 1

/-- Modelled from the Python runtime: `float(Decimal(...))`, conversion of an
exact rational to the nearest IEEE-754 binary64 value (round to nearest, ties
to even, 53-bit significand).  Every value this code converts lies far inside
the normal range, where the conversion rounds the significand scaled to
`[2^52, 2^53)`. -/
def floatRound (q : ℚ) : ℚ :=
  if q = 0 then 0
  else
    let e : ℤ := Int.log 2 |q|
    (roundHalfEven (q * 2 ^ (52 - e)) : ℚ) * 2 ^ (e - 52)

/-- Modelled from the Python runtime: `f"{d:,.2f}"` on a float of exact value
`d` — the value correctly rounded to two fraction digits (ties to even), the
integer digits grouped by commas, a `'-'` sign for negative values. -/
def pyFormatFloat2 (d : ℚ) : List Char :=
  let a := (roundHalfEven (100 * d)).natAbs
  let body := groupThousands (natChars (a / 100)) ++
    '.' :: [digitChar (a / 10 % 10), digitChar (a % 10)]
  if d < 0 then '-' :: body else body

/-- `str.split(sep)` for a one-character separator: every occurrence splits,
empty parts are kept, the empty string yields `[""]`. -/
def pySplit (sep : Char) : List Char → List (List Char)
  | [] => [[]]
  | c :: rest =>
    if c = sep then [] :: pySplit sep rest
    else
      match pySplit sep rest with
      | [] => [[c]]
      | g :: gs => (c :: g) :: gs

/-- Worker of `str.replace` for a nonempty pattern, with fuel bounding the
scan length: replace every non-overlapping occurrence of `old`, left to
right. -/
def pyReplaceAux (old new : List Char) : Nat → List Char → List Char
  | _, [] => []
  | 0, s => s
  | f + 1, c :: rest =>
    if old.isPrefixOf (c :: rest) then
      new ++ pyReplaceAux old new f (List.drop (old.length - 1) rest)
    else c :: pyReplaceAux old new f rest

/-- `s.replace(old, new)`.  All call sites of this code base use a nonempty
`old`; an empty pattern is returned unchanged here. -/
def pyReplace (s old new : List Char) : List Char :=
  if old = [] then s else pyReplaceAux old new s.length s

/-- `s.rsplit(',', 1)` when a comma is present: the parts before and after
the last comma. -/
def rsplitComma (s : List Char) : List Char × List Char :=
  let r := s.reverse
  (((r.dropWhile (· ≠ ',')).drop 1).reverse, (r.takeWhile (· ≠ ',')).reverse)

/-- Unsigned mantissa of a decimal numeric string: `digits`, `digits '.'
digits?`, or `'.' digits`, with at least one digit; returns its value and the
unconsumed remainder. -/
def splitMantissa (s : List Char) : Option (ℚ × List Char) :=
  let ip := s.takeWhile Char.isDigit
  let rest := s.drop ip.length
  if rest.head? = some '.' then
    let fp := rest.tail.takeWhile Char.isDigit
    if ip.isEmpty && fp.isEmpty then none
    else some ((listVal ip : ℚ) + (listVal fp : ℚ) / (10 : ℚ) ^ fp.length,
      rest.tail.drop fp.length)
  else if ip.isEmpty then none
  else some ((listVal ip : ℚ), rest)

/-- Optional exponent suffix `[eE][+-]?digits` of a decimal numeric string;
`none` on anything else left over. -/
def splitExponent (s : List Char) : Option ℤ :=
  match s with
  | [] => some 0
  | e :: r1 =>
    if e = 'e' ∨ e = 'E' then
      let sr : Bool × List Char :=
        match r1 with
        | '+' :: r2 => (false, r2)
        | '-' :: r2 => (true, r2)
        | _ => (false, r1)
      let ds := sr.2.takeWhile Char.isDigit
      if ds.isEmpty || !(sr.2.drop ds.length).isEmpty then none
      else some (if sr.1 then -(listVal ds : ℤ) else (listVal ds : ℤ))
    else none

/-- ASCII lowercasing, `str.lower()` restricted to the characters the
numeric-string grammar inspects. -/
def asciiLower (s : List Char) : List Char := s.map Char.toLower

/-- Modelled from the Python runtime: the `Decimal(str)` constructor.
Leading/trailing whitespace is removed, then the decimal numeric-string
grammar applies: an optional sign, either a (possibly dotted) coefficient
with an optional exponent or one of the special values `Infinity`/`NaN`/
`sNaN` (case-insensitive, NaN with an optional digit payload).  Anything
else raises `InvalidOperation`, modelled as `none`.  (CPython additionally
allows `_` digit grouping; no call site of this code base can feed an
underscore through.) -/
def pyDecimalOfString (s : List Char) : Option PyDec :=
  let t := ((s.dropWhile Char.isWhitespace).reverse.dropWhile Char.isWhitespace).reverse
  let sb : Bool × List Char :=
    if t.head? = some '+' then (false, t.tail)
    else if t.head? = some '-' then (true, t.tail)
    else (false, t)
  let low := asciiLower sb.2
  if low = "inf".data ∨ low = "infinity".data then some (.inf sb.1)
  else if low.take 3 = "nan".data ∧ (low.drop 3).all Char.isDigit then some .nan
  else if low.take 4 = "snan".data ∧ (low.drop 4).all Char.isDigit then some .nan
  else
    match splitMantissa sb.2 with
    | none => none
    | some (m, rest) =>
      match splitExponent rest with
      | none => none
      | some k => some (.num ((if sb.1 then -m else m) * (10 : ℚ) ^ k))

/-! ## `app/utils/currency.py` -/

/-- `format_currency_brl` from `app/utils/currency.py`, on a `Decimal`
argument of value `x`: convert to float, format as `f"{...:,.2f}"`, split on
`'.'`, replace the thousands commas by dots, rejoin integer and fraction
parts with a comma, and prefix `"R$ "`.  The surrounding
`except (ValueError, TypeError)` never fires on this path. -/
def format_currency_brl (x : ℚ) : List Char :=
  let amount_float := floatRound x
  let formatted := pyFormatFloat2 amount_float
  let formatted2 :=
    match pySplit '.' formatted with
    | [integer_part, decimal_part] =>
      let ip := if ',' ∈ integer_part
        then pyReplace integer_part [','] ['.']
        else integer_part
      ip ++ ',' :: decimal_part
    | _ => formatted
  "R$ ".data ++ formatted2

/-- `parse_currency_brl` from `app/utils/currency.py`: empty input yields
`Decimal('0.00')`; otherwise strip `"R$"` and spaces, split at the last comma
if one is present (dropping dots from the integer part) or drop all dots, and
hand the result to the `Decimal` constructor.  `InvalidOperation` raised
there escapes, because the `except` clause lists only `ValueError` and
`TypeError`. -/
def parse_currency_brl (s : List Char) : Except PyExc PyDec :=
  if s = [] then .ok (.num 0)
  else
    let t := pyReplace (pyReplace s "R$".data []) " ".data []
    let amount_str :=
      if ',' ∈ t then
        let p := rsplitComma t
        pyReplace p.1 ['.'] [] ++ '.' :: p.2
      else pyReplace t ['.'] []
    match pyDecimalOfString amount_str with
    | some v => .ok v
    | none => .error .invalidOperation

/-! ## Data model of `app/models` and `app/schemas`

Only the columns the transfer endpoints read or write are carried.
Timestamps other than the creation day are omitted: no claim inspects them.
Monetary columns are exact decimals (`Numeric(15, 2)`), modelled as `ℚ`. -/

inductive TransactionStatus where
  | pending | processing | completed | failed | cancelled
deriving DecidableEq

inductive TransactionType where
  | instant_transfer | pix_transfer | sepa_transfer | deposit | withdrawal
deriving DecidableEq

structure User where
  id : Int
deriving DecidableEq

structure Account where
  id : Int
  owner_id : Int
  balance : ℚ
  daily_limit : ℚ
  is_active : Bool
  is_blocked : Bool
deriving DecidableEq

structure Transaction where
  transaction_id : Nat
  amount : ℚ
  currency : List Char
  description : Option (List Char)
  transaction_type : TransactionType
  status : TransactionStatus
  sender_id : Option Int
  receiver_id : Option Int
  sender_account_id : Int
  receiver_account_id : Option Int
  external_recipient_name : Option (List Char)
  external_recipient_bank : Option (List Char)
  external_recipient_account : Option (List Char)
  external_recipient_document : Option (List Char)
  pix_key : Option (List Char)
  created_day : Nat
deriving DecidableEq

/-- `TransferCreate` from `app/schemas/transaction.py` (its pydantic
validator constrains `amount` upstream; the endpoint sees any value that
passed it). -/
structure TransferCreate where
  amount : ℚ
  currency : List Char
  description : Option (List Char)
  transaction_type : TransactionType
  receiver_account_id : Option Int
  external_recipient_name : Option (List Char)
  external_recipient_bank : Option (List Char)
  external_recipient_account : Option (List Char)
  external_recipient_document : Option (List Char)
  pix_key : Option (List Char)
deriving DecidableEq

/-- The SQLAlchemy session as seen by one request: the committed rows. -/
structure DB where
  users : List User
  accounts : List Account
  transactions : List Transaction
deriving DecidableEq

/-- Python truthiness of an `Optional[int]` field: `None` and `0` are falsy. -/
def truthyN : Option Int → Bool
  | none => false
  | some n => n ≠ 0

/-- Python truthiness of an `Optional[str]` field: `None` and `""` are falsy. -/
def truthyS : Option (List Char) → Bool
  | none => false
  | some s => !s.isEmpty

/-- Mutate the first list element satisfying `p` — the object that
`query(...).filter(...).first()` returned and the endpoint then assigns to. -/
def updateFirst (p : α → Bool) (f : α → α) : List α → List α
  | [] => []
  | x :: xs => if p x then f x :: xs else x :: updateFirst p f xs

/-- The HTTP errors `create_instant_transfer` raises, in source order. -/
inductive TransferError where
  | senderNotFound        -- 404 "Sender account not found"
  | accountUnavailable    -- 400 "Sender account is not available for transfers"
  | insufficientBalance   -- 400 "Insufficient balance"
  | dailyLimitExceeded    -- 400 "Daily transfer limit exceeded"
  | receiverNotFound      -- 404 "Receiver account not found"
  | receiverInactive      -- 400 "Receiver account is not active"
  | missingRecipientInfo  -- 400 "Missing recipient information for external transfer"
deriving DecidableEq

/-- The HTTP errors `cancel_transfer` raises. -/
inductive CancelError where
  | notFound                -- 404 "Transaction not found"
  | invalidStateTransition  -- 400 "Cannot cancel completed or failed transaction"
deriving DecidableEq

/-! ## `app/api/transfers.py` -/

/-- Row filter of the sender-account query. -/
def senderQuery (sender_account_id current_user_id : Int) (a : Account) : Bool :=
  a.id = sender_account_id && a.owner_id = current_user_id

/-- Row filter of the daily-limit aggregation: this sender account's
completed transactions of the current calendar day. -/
def dailyQuery (sender_account_id : Int) (today : Nat) (t : Transaction) : Bool :=
  t.sender_account_id = sender_account_id && t.created_day = today
    && t.status = TransactionStatus.completed

/-- `create_instant_transfer` from `app/api/transfers.py`.  An uncommitted
raise leaves the store untouched, so every error carries the session state at
raise time (always the input state: each raise precedes the first mutation).
`today` models `datetime.now().date()` and `new_txn_id` the generated UUID;
`processed_at`/`completed_at` stamps are not carried.  The `except` fallback
to a `Failed` transaction is unreachable here: its guarded block is pure in
this model. -/
def create_instant_transfer (transfer : TransferCreate) (sender_account_id : Int)
    (current_user_id : Int) (today : Nat) (new_txn_id : Nat) (db : DB) :
    Except (TransferError × DB) (DB × Transaction) :=
  match db.accounts.find? (senderQuery sender_account_id current_user_id) with
  | none => .error (.senderNotFound, db)
  | some sender_account =>
    if !sender_account.is_active || sender_account.is_blocked then
      .error (.accountUnavailable, db)
    else if sender_account.balance < transfer.amount then
      .error (.insufficientBalance, db)
    else
      let daily_total :=
        ((db.transactions.filter (dailyQuery sender_account_id today)).map
          Transaction.amount).sum
      if sender_account.daily_limit < daily_total + transfer.amount then
        .error (.dailyLimitExceeded, db)
      else
        let finish : Option Account → Option User → Except (TransferError × DB) (DB × Transaction) :=
          fun receiver_account receiver_user =>
            let txn : Transaction :=
              { transaction_id := new_txn_id
                amount := transfer.amount
                currency := transfer.currency
                description := transfer.description
                transaction_type := transfer.transaction_type
                status := TransactionStatus.processing
                sender_id := some current_user_id
                receiver_id := receiver_user.map User.id
                sender_account_id := sender_account_id
                receiver_account_id := transfer.receiver_account_id
                external_recipient_name := transfer.external_recipient_name
                external_recipient_bank := transfer.external_recipient_bank
                external_recipient_account := transfer.external_recipient_account
                external_recipient_document := transfer.external_recipient_document
                pix_key := transfer.pix_key
                created_day := today }
            let debited := updateFirst (senderQuery sender_account_id current_user_id)
              (fun a => { a with balance := a.balance - transfer.amount }) db.accounts
            match receiver_account with
            | some _ =>
              let credited := updateFirst
                (fun a => transfer.receiver_account_id = some a.id)
                (fun a => { a with balance := a.balance + transfer.amount }) debited
              let txn2 := { txn with status := TransactionStatus.completed }
              .ok ({ db with
                      accounts := credited
                      transactions := db.transactions ++ [txn2] }, txn2)
            | none =>
              .ok ({ db with
                      accounts := debited
                      transactions := db.transactions ++ [txn] }, txn)
        if truthyN transfer.receiver_account_id then
          match db.accounts.find? (fun a => transfer.receiver_account_id = some a.id) with
          | none => .error (.receiverNotFound, db)
          | some receiver_account =>
            if !receiver_account.is_active then .error (.receiverInactive, db)
            else
              finish (some receiver_account)
                (db.users.find? (fun u => u.id = receiver_account.owner_id))
        else if truthyS transfer.pix_key then
          -- PIX branch of the source: `pass` — no key validation, treated
          -- as an external transfer.
          finish none none
        else if !(truthyS transfer.external_recipient_name
            && truthyS transfer.external_recipient_bank
            && truthyS transfer.external_recipient_account) then
          .error (.missingRecipientInfo, db)
        else
          finish none none

/-- Row filter of the cancellation lookup: the transaction id, and the
requester must be the recorded sender. -/
def cancelQuery (transaction_id : Nat) (current_user_id : Int) (t : Transaction) : Bool :=
  t.transaction_id = transaction_id && t.sender_id = some current_user_id

/-- `cancel_transfer` from `app/api/transfers.py`: find the requester's own
transaction, reject terminal statuses, reverse balances when it was
`Processing` (sender credited back; internal receiver debited back when the
record carries a receiver account reference), and set the status to
`Cancelled`. -/
def cancel_transfer (transaction_id : Nat) (current_user_id : Int) (db : DB) :
    Except (CancelError × DB) DB :=
  match db.transactions.find? (cancelQuery transaction_id current_user_id) with
  | none => .error (.notFound, db)
  | some transaction =>
    if !(transaction.status = TransactionStatus.pending
        || transaction.status = TransactionStatus.processing) then
      .error (.invalidStateTransition, db)
    else
      let accounts1 :=
        if transaction.status = TransactionStatus.processing then
          let afterSender :=
            match db.accounts.find? (fun a => a.id = transaction.sender_account_id) with
            | some _ => updateFirst (fun a => a.id = transaction.sender_account_id)
                (fun a => { a with balance := a.balance + transaction.amount }) db.accounts
            | none => db.accounts
          if truthyN transaction.receiver_account_id then
            match afterSender.find? (fun a => transaction.receiver_account_id = some a.id) with
            | some _ => updateFirst (fun a => transaction.receiver_account_id = some a.id)
                (fun a => { a with balance := a.balance - transaction.amount }) afterSender
            | none => afterSender
          else afterSender
        else db.accounts
      .ok { db with
            accounts := accounts1
            transactions := updateFirst (cancelQuery transaction_id current_user_id)
              (fun t => { t with status := TransactionStatus.cancelled }) db.transactions }

/-! ## Specification-side predicate for the CPF check-digit contract

Stated over the digit *values* of the input, following the specification's
wording rather than the implementation. -/

/-- The digit values of a string after removing all non-digit characters. -/
def cpfDigits (s : List Char) : List Nat := (s.filter Char.isDigit).map digitVal

/-- The specification's CPF contract: after removing all non-digit
characters the string has exactly 11 digits, not all identical; digit 9 is
the check digit from weights 10..2 over positions 0..8 (`remainder = sum mod
11`, `check = 0 if remainder < 2 else 11 - remainder`); digit 10 is the
check digit computed the same way from weights 11..2 over positions 0..9. -/
def cpfSpecProp (s : List Char) : Prop :=
  let ds := cpfDigits s
  ds.length = 11 ∧ ¬(∀ d ∈ ds, d = ds.headD 0) ∧
    ds.getD 9 0 = checkFrom ((∑ i ∈ Finset.range 9, ds.getD i 0 * (10 - i)) % 11) ∧
    ds.getD 10 0 = checkFrom ((∑ i ∈ Finset.range 10, ds.getD i 0 * (11 - i)) % 11)

/-! ## Concrete fixtures (the specification's test scenario and variants) -/

/-- Scenario account A: balance 1000.00, daily limit 500.00. -/
def accountA : Account :=
  { id := 1, owner_id := 1, balance := 1000, daily_limit := 500,
    is_active := true, is_blocked := false }

/-- Scenario account B: balance 0.00. -/
def accountB : Account :=
  { id := 2, owner_id := 2, balance := 0, daily_limit := 10000,
    is_active := true, is_blocked := false }

/-- Scenario store: users 1 and 2 owning accounts A and B, no history. -/
def dbScenario : DB :=
  { users := [⟨1⟩, ⟨2⟩], accounts := [accountA, accountB], transactions := [] }

/-- An internal transfer request to account B. -/
def transferAB (amt : ℚ) : TransferCreate :=
  { amount := amt, currency := "BRL".data, description := none,
    transaction_type := .instant_transfer, receiver_account_id := some 2,
    external_recipient_name := none, external_recipient_bank := none,
    external_recipient_account := none, external_recipient_document := none,
    pix_key := none }

/-- A payment-key transfer request carrying key `k` and no other mode. -/
def transferPix (k : List Char) : TransferCreate :=
  { transferAB 10 with receiver_account_id := none, pix_key := some k }

/-- The committed transaction of the scenario's first transfer. -/
def txn300 : Transaction :=
  { transaction_id := 100, amount := 300, currency := "BRL".data,
    description := none, transaction_type := .instant_transfer,
    status := .completed, sender_id := some 1, receiver_id := some 2,
    sender_account_id := 1, receiver_account_id := some 2,
    external_recipient_name := none, external_recipient_bank := none,
    external_recipient_account := none, external_recipient_document := none,
    pix_key := none, created_day := 50 }

/-- The store after the scenario's first transfer: A at 700.00, B at 300.00,
one completed same-day transaction of 300.00. -/
def dbScenario1 : DB :=
  { users := [⟨1⟩, ⟨2⟩],
    accounts := [{ accountA with balance := 700 }, { accountB with balance := 300 }],
    transactions := [txn300] }

/-- The scenario's first transfer, recorded with a supplied payment key as
well as the internal receiver reference. -/
def txnDual : Transaction := { txn300 with amount := 10, pix_key := some "x".data }

/-- The store after that dual-mode transfer. -/
def dbDual : DB :=
  { dbScenario with
    accounts := [{ accountA with balance := 990 }, { accountB with balance := 10 }]
    transactions := [txnDual] }

/-- The transaction a payment-key transfer of 10.00 with key `k` records. -/
def txnPix (k : List Char) (tid : Nat) : Transaction :=
  { transaction_id := tid, amount := 10, currency := "BRL".data, description := none,
    transaction_type := .instant_transfer, status := .processing, sender_id := some 1,
    receiver_id := none, sender_account_id := 1, receiver_account_id := none,
    external_recipient_name := none, external_recipient_bank := none,
    external_recipient_account := none, external_recipient_document := none,
    pix_key := some k, created_day := 50 }

/-- The store after that payment-key transfer: the sender debited, no
receiver credited. -/
def dbPix (k : List Char) (tid : Nat) : DB :=
  { dbScenario with
    accounts := [{ accountA with balance := 990 }, accountB]
    transactions := [txnPix k tid] }

/-- A pending transaction whose sender is user 1. -/
def txnPending : Transaction := { txnPix "k2".data 102 with status := .pending }

/-- The scenario store holding only that pending transaction. -/
def dbPending : DB := { dbScenario with transactions := [txnPending] }

/-- The scenario's internal 300.00 transfer, still in `Processing`. -/
def txnProcInt : Transaction := { txn300 with status := .processing }

/-- The post-transfer store holding that processing transaction. -/
def dbProcInt : DB := { dbScenario1 with transactions := [txnProcInt] }

/-! ## Claim theorems -/

/-- An `if` whose branches are both errors never equals a success. -/
theorem iteErrNeOk {e : Type} {a : Type} {c : Prop} [Decidable c] {e1 e2 : e} {p : a} :
    (if c then Except.error e1 else Except.error e2) ≠ Except.ok p := by
  split <;> simp

/-- C10: for every key string and key-type string outside
`{cpf, cnpj, email, phone, random}` — as well as whenever the key or the
type is empty — `validate_pix_key` returns false: the dispatch is closed
over exactly those five types. -/
theorem pix_key_dispatch_closed (key ktype : List Char)
    (h : ktype ∉ ["cpf".data, "cnpj".data, "email".data, "phone".data, "random".data]
      ∨ key = [] ∨ ktype = []) :
    validate_pix_key key ktype = false := by
  unfold validate_pix_key
  rcases h with h | h | h
  · simp only [List.mem_cons, List.not_mem_nil, or_false, not_or] at h
    obtain ⟨h1, h2, h3, h4, h5⟩ := h
    simp [h1, h2, h3, h4, h5]
  · simp [h]
  · simp [h]

theorem pix_key_dispatch_closed_witness :
    ("iban".data ∉ ["cpf".data, "cnpj".data, "email".data, "phone".data, "random".data]
      ∨ "k".data = ([] : List Char) ∨ "iban".data = ([] : List Char))
    ∧ validate_pix_key "k".data "iban".data = false :=
  ⟨Or.inl (by decide), pix_key_dispatch_closed "k".data "iban".data (Or.inl (by decide))⟩

/-- C9: contrary to the claim that malformed input always yields the zero
amount, `parse_currency_brl "abc"` reaches `Decimal("abc")`, which raises
`decimal.InvalidOperation` — an `ArithmeticError` that the function's
`except (ValueError, TypeError)` clause does not catch, so the exception
escapes.  Only the empty string takes the documented zero fallback. -/
theorem parse_currency_raises_invalid_operation :
    parse_currency_brl "abc".data = .error .invalidOperation
      ∧ parse_currency_brl [] = .ok (.num 0) := by decide

/-- C2: when the sender account exists, is active and unblocked, and the
requested amount exceeds its balance, `create_instant_transfer` fails with
`InsufficientBalance` and the store is returned exactly as it was — no
balance of any account is mutated. -/
theorem insufficient_balance_rejected (transfer : TransferCreate)
    (said uid : Int) (today tid : Nat) (db : DB) (sa : Account)
    (hfind : db.accounts.find? (senderQuery said uid) = some sa)
    (hact : sa.is_active = true) (hblk : sa.is_blocked = false)
    (hbal : sa.balance < transfer.amount) :
    create_instant_transfer transfer said uid today tid db
      = .error (.insufficientBalance, db) := by
  unfold create_instant_transfer
  rw [hfind]
  simp [hact, hblk, hbal]

theorem insufficient_balance_rejected_witness :
    dbScenario.accounts.find? (senderQuery 1 1) = some accountA
    ∧ accountA.is_active = true ∧ accountA.is_blocked = false
    ∧ accountA.balance < (transferAB 2000).amount
    ∧ create_instant_transfer (transferAB 2000) 1 1 50 100 dbScenario
        = .error (.insufficientBalance, dbScenario) :=
  ⟨by decide, by decide, by decide, by decide,
    insufficient_balance_rejected (transferAB 2000) 1 1 50 100 dbScenario accountA
      (by decide) (by decide) (by decide) (by decide)⟩

/-- C6: when the sender account exists, is active, unblocked and has
sufficient balance, but the day's completed outgoing total plus the new
amount exceeds the account's daily limit, `create_instant_transfer` fails
with `DailyLimitExceeded` and the store is unchanged.  The witness runs the
specification's scenario: limit 500.00, a completed same-day 300.00
transfer, then a second 300.00 transfer rejected at cumulative 600.00. -/
theorem daily_limit_rejected (transfer : TransferCreate)
    (said uid : Int) (today tid : Nat) (db : DB) (sa : Account)
    (hfind : db.accounts.find? (senderQuery said uid) = some sa)
    (hact : sa.is_active = true) (hblk : sa.is_blocked = false)
    (hbal : ¬sa.balance < transfer.amount)
    (hlim : sa.daily_limit <
      ((db.transactions.filter (dailyQuery said today)).map Transaction.amount).sum
        + transfer.amount) :
    create_instant_transfer transfer said uid today tid db
      = .error (.dailyLimitExceeded, db) := by
  unfold create_instant_transfer
  rw [hfind]
  simp [hact, hblk, hbal, hlim]

theorem daily_limit_rejected_witness :
    create_instant_transfer (transferAB 300) 1 1 50 100 dbScenario
        = .ok (dbScenario1, txn300)
    ∧ dbScenario1.accounts.find? (senderQuery 1 1) = some { accountA with balance := 700 }
    ∧ ((dbScenario1.transactions.filter (dailyQuery 1 50)).map Transaction.amount).sum = 300
    ∧ ({ accountA with balance := 700 } : Account).daily_limit < 300 + (transferAB 300).amount
    ∧ create_instant_transfer (transferAB 300) 1 1 50 101 dbScenario1
        = .error (.dailyLimitExceeded, dbScenario1) :=
  ⟨by norm_num [create_instant_transfer, transferAB, dbScenario, dbScenario1, txn300,
      accountA, accountB, senderQuery, dailyQuery, truthyN, truthyS, updateFirst,
      List.find?, List.filter],
    by norm_num [dbScenario1, accountA, accountB, senderQuery, List.find?],
    by norm_num [dbScenario1, txn300, dailyQuery, List.filter],
    by norm_num [accountA, transferAB],
    daily_limit_rejected (transferAB 300) 1 1 50 101 dbScenario1
      { accountA with balance := 700 }
      (by norm_num [dbScenario1, accountA, accountB, senderQuery, List.find?])
      (by norm_num [accountA]) (by norm_num [accountA])
      (by norm_num [accountA, transferAB])
      (by norm_num [dbScenario1, txn300, accountA, transferAB, dailyQuery, List.filter])⟩

/-- C4 counterexample -/
theorem dual_recipient_mode_accepted :
    truthyN ({ transferAB 10 with pix_key := some "x".data } : TransferCreate).receiver_account_id = true
    ∧ truthyS ({ transferAB 10 with pix_key := some "x".data } : TransferCreate).pix_key = true
    ∧ create_instant_transfer { transferAB 10 with pix_key := some "x".data } 1 1 50 100 dbScenario
        = .ok (dbDual, txnDual) := by
  refine ⟨by decide, by decide, ?_⟩
  norm_num [create_instant_transfer, transferAB, dbScenario, dbDual, txnDual, txn300,
    accountA, accountB, senderQuery, dailyQuery, truthyN, truthyS, updateFirst,
    List.find?, List.filter]

/-- C4 amended -/
theorem missing_recipient_iff_no_mode (transfer : TransferCreate)
    (said uid : Int) (today tid : Nat) (db : DB) (sa : Account)
    (hfind : db.accounts.find? (senderQuery said uid) = some sa)
    (hact : sa.is_active = true) (hblk : sa.is_blocked = false)
    (hbal : ¬sa.balance < transfer.amount)
    (hlim : ¬sa.daily_limit <
      ((db.transactions.filter (dailyQuery said today)).map Transaction.amount).sum
        + transfer.amount) :
    (create_instant_transfer transfer said uid today tid db
        = .error (.missingRecipientInfo, db)
      ↔ truthyN transfer.receiver_account_id = false
        ∧ truthyS transfer.pix_key = false
        ∧ (truthyS transfer.external_recipient_name
            && truthyS transfer.external_recipient_bank
            && truthyS transfer.external_recipient_account) = false) := by
  unfold create_instant_transfer
  rw [hfind]
  simp only [hact, hblk, Bool.not_true, Bool.false_or, if_neg hbal, if_neg hlim,
    Bool.false_eq_true, if_false]
  cases h1 : truthyN transfer.receiver_account_id with
  | true =>
    simp only [if_true]
    cases hr : db.accounts.find? (fun a => transfer.receiver_account_id = some a.id) with
    | none => simp
    | some ra =>
      cases hra : ra.is_active <;> simp [hra]
  | false =>
    simp only [if_false]
    cases h2 : truthyS transfer.pix_key with
    | true => simp
    | false =>
      cases h3 : (truthyS transfer.external_recipient_name
          && truthyS transfer.external_recipient_bank
          && truthyS transfer.external_recipient_account) <;> simp

theorem missing_recipient_iff_no_mode_witness :
    (create_instant_transfer { transferAB 10 with receiver_account_id := none }
        1 1 50 100 dbScenario = .error (.missingRecipientInfo, dbScenario)
      ↔ truthyN ({ transferAB 10 with receiver_account_id := none } : TransferCreate).receiver_account_id = false
        ∧ truthyS ({ transferAB 10 with receiver_account_id := none } : TransferCreate).pix_key = false
        ∧ (truthyS ({ transferAB 10 with receiver_account_id := none } : TransferCreate).external_recipient_name
            && truthyS ({ transferAB 10 with receiver_account_id := none } : TransferCreate).external_recipient_bank
            && truthyS ({ transferAB 10 with receiver_account_id := none } : TransferCreate).external_recipient_account) = false) :=
  missing_recipient_iff_no_mode { transferAB 10 with receiver_account_id := none }
    1 1 50 100 dbScenario accountA (by decide) (by decide) (by decide) (by decide)
    (by norm_num [dbScenario, accountA, transferAB, dailyQuery, List.filter])

/-- C3 counterexample -/
theorem invalid_pix_key_transfer_executes :
    validate_pix_key "xyz".data "cpf".data = false
    ∧ validate_pix_key "xyz".data "cnpj".data = false
    ∧ validate_pix_key "xyz".data "email".data = false
    ∧ validate_pix_key "xyz".data "phone".data = false
    ∧ validate_pix_key "xyz".data "random".data = false
    ∧ create_instant_transfer (transferPix "xyz".data) 1 1 50 100 dbScenario
        = .ok (dbPix "xyz".data 100, txnPix "xyz".data 100) := by
  refine ⟨by decide, by decide, by decide, by decide, by decide, ?_⟩
  norm_num [create_instant_transfer, transferPix, transferAB, dbScenario, dbPix, txnPix,
    accountA, accountB, senderQuery, dailyQuery, truthyN, truthyS, updateFirst,
    List.find?, List.filter]

/-- C3 amended -/
theorem pix_mode_skips_key_validation (transfer : TransferCreate)
    (said uid : Int) (today tid : Nat) (db : DB) (sa : Account)
    (hfind : db.accounts.find? (senderQuery said uid) = some sa)
    (hact : sa.is_active = true) (hblk : sa.is_blocked = false)
    (hbal : ¬sa.balance < transfer.amount)
    (hlim : ¬sa.daily_limit <
      ((db.transactions.filter (dailyQuery said today)).map Transaction.amount).sum
        + transfer.amount)
    (hrid : truthyN transfer.receiver_account_id = false)
    (hpix : truthyS transfer.pix_key = true) :
    ∃ db' txn, create_instant_transfer transfer said uid today tid db = .ok (db', txn)
      ∧ txn.status = .processing
      ∧ txn.pix_key = transfer.pix_key
      ∧ db'.accounts = updateFirst (senderQuery said uid)
          (fun a => { a with balance := a.balance - transfer.amount }) db.accounts
      ∧ db'.transactions = db.transactions ++ [txn] := by
  unfold create_instant_transfer
  rw [hfind]
  simp only [hact, hblk, Bool.not_true, Bool.false_or, if_neg hbal, if_neg hlim,
    hrid, hpix, Bool.false_eq_true, if_false, if_true]
  exact ⟨_, _, rfl, rfl, rfl, rfl, rfl⟩

theorem pix_mode_skips_key_validation_witness :
    ∃ db' txn,
      create_instant_transfer (transferPix "xyz2".data) 1 1 50 100 dbScenario = .ok (db', txn)
      ∧ txn.status = .processing
      ∧ txn.pix_key = (transferPix "xyz2".data).pix_key
      ∧ db'.accounts = updateFirst (senderQuery 1 1)
          (fun a => { a with balance := a.balance - (transferPix "xyz2".data).amount })
          dbScenario.accounts
      ∧ db'.transactions = dbScenario.transactions ++ [txn] :=
  pix_mode_skips_key_validation (transferPix "xyz2".data) 1 1 50 100 dbScenario accountA
    (by decide) (by decide) (by decide)
    (by norm_num [dbScenario, accountA, transferPix, transferAB])
    (by norm_num [dbScenario, accountA, transferPix, transferAB, dailyQuery, List.filter])
    (by decide) (by decide)

/-- C5 counterexample -/
theorem transaction_created_processing_not_pending :
    create_instant_transfer (transferPix "k1".data) 1 1 50 101 dbScenario
        = .ok (dbPix "k1".data 101, txnPix "k1".data 101)
    ∧ (txnPix "k1".data 101).status ≠ .pending
    ∧ (txnPix "k1".data 101).status = .processing := by
  refine ⟨?_, by decide, by decide⟩
  norm_num [create_instant_transfer, transferPix, transferAB, dbScenario, dbPix, txnPix,
    accountA, accountB, senderQuery, dailyQuery, truthyN, truthyS, updateFirst,
    List.find?, List.filter]

/-- C5 amended -/
theorem status_machine_amended :
    (∀ (transfer : TransferCreate) (said uid : Int) (today tid : Nat) (db db' : DB)
        (txn : Transaction),
      create_instant_transfer transfer said uid today tid db = .ok (db', txn) →
      (txn.status = .completed ∨ txn.status = .processing)
        ∧ db'.transactions = db.transactions ++ [txn])
    ∧ (∀ (tid : Nat) (uid : Int) (db db' : DB),
      cancel_transfer tid uid db = .ok db' →
      ∃ t, db.transactions.find? (cancelQuery tid uid) = some t
        ∧ (t.status = .pending ∨ t.status = .processing)
        ∧ db'.transactions = updateFirst (cancelQuery tid uid)
            (fun u => { u with status := .cancelled }) db.transactions)
    ∧ (∀ (tid : Nat) (uid : Int) (db : DB) (t : Transaction),
      db.transactions.find? (cancelQuery tid uid) = some t →
      t.status ≠ .pending → t.status ≠ .processing →
      cancel_transfer tid uid db = .error (.invalidStateTransition, db)) := by
  refine ⟨?_, ?_, ?_⟩
  · intro transfer said uid today tid db db' txn h
    unfold create_instant_transfer at h
    repeat' split at h
    all_goals try exact absurd h iteErrNeOk
    all_goals try (rw [ite_eq_iff] at h
                   rcases h with ⟨hc, h⟩ | ⟨hc, h⟩
                   · exact absurd h (by simp)
                   · rw [Except.ok.injEq, Prod.mk.injEq] at h
                     obtain ⟨h1, h2⟩ := h
                     subst h1; subst h2
                     exact ⟨by simp, rfl⟩)
    all_goals simp_all
  · intro tid uid db db' h
    unfold cancel_transfer at h
    cases hf : db.transactions.find? (cancelQuery tid uid) with
    | none => rw [hf] at h; cases h
    | some t =>
      rw [hf] at h
      split at h
      · rename_i heq
        exact absurd heq (by simp)
      · rename_i transaction heq
        rw [Option.some.injEq] at heq
        subst heq
        split at h
        · cases h
        · rename_i hcond
          refine ⟨t, rfl, ?_, ?_⟩
          · simp only [Bool.not_eq_true', Bool.or_eq_false_iff, decide_eq_false_iff_not] at hcond
            tauto
          · simp only [Except.ok.injEq] at h
            rw [← h]
  · intro tid uid db t hfind h1 h2
    unfold cancel_transfer
    rw [hfind]
    simp [h1, h2]

theorem status_machine_amended_witness :
    ((txnPix "k1".data 101).status = .completed ∨ (txnPix "k1".data 101).status = .processing)
    ∧ (dbPix "k1".data 101).transactions = dbScenario.transactions ++ [txnPix "k1".data 101] :=
  status_machine_amended.1 (transferPix "k1".data) 1 1 50 101 dbScenario
    (dbPix "k1".data 101) (txnPix "k1".data 101)
    (by norm_num [create_instant_transfer, transferPix, transferAB, dbScenario, dbPix, txnPix,
      accountA, accountB, senderQuery, dailyQuery, truthyN, truthyS, updateFirst,
      List.find?, List.filter])

/-- C7 counterexample -/
theorem cancel_by_non_sender_not_found :
    txnPending.status = .pending
    ∧ txnPending.sender_id = some 1
    ∧ cancel_transfer 102 2 dbPending = .error (.notFound, dbPending) := by
  refine ⟨by decide, by decide, by decide⟩

/-- C7 amended -/
theorem cancel_transfer_behaviour :
    (∀ (tid : Nat) (uid : Int) (db db' : DB),
      cancel_transfer tid uid db = .ok db' →
      ∃ t, db.transactions.find? (cancelQuery tid uid) = some t
        ∧ (t.status = .pending ∨ t.status = .processing))
    ∧ (∀ (tid : Nat) (uid : Int) (db : DB),
      db.transactions.find? (cancelQuery tid uid) = none →
      cancel_transfer tid uid db = .error (.notFound, db))
    ∧ (∀ (tid : Nat) (uid : Int) (db : DB) (t : Transaction),
      db.transactions.find? (cancelQuery tid uid) = some t →
      t.status ≠ .pending → t.status ≠ .processing →
      cancel_transfer tid uid db = .error (.invalidStateTransition, db))
    ∧ (∀ (tid : Nat) (uid : Int) (db : DB) (t : Transaction) (sa ra : Account),
      db.transactions.find? (cancelQuery tid uid) = some t →
      t.status = .processing →
      db.accounts.find? (fun a => a.id = t.sender_account_id) = some sa →
      truthyN t.receiver_account_id = true →
      (updateFirst (fun a => a.id = t.sender_account_id)
          (fun a => { a with balance := a.balance + t.amount }) db.accounts).find?
            (fun a => t.receiver_account_id = some a.id) = some ra →
      cancel_transfer tid uid db = .ok
        { db with
          accounts := updateFirst (fun a => t.receiver_account_id = some a.id)
            (fun a => { a with balance := a.balance - t.amount })
            (updateFirst (fun a => a.id = t.sender_account_id)
              (fun a => { a with balance := a.balance + t.amount }) db.accounts)
          transactions := updateFirst (cancelQuery tid uid)
            (fun u => { u with status := .cancelled }) db.transactions })
    ∧ (∀ (tid : Nat) (uid : Int) (db : DB) (t : Transaction) (sa : Account),
      db.transactions.find? (cancelQuery tid uid) = some t →
      t.status = .processing →
      db.accounts.find? (fun a => a.id = t.sender_account_id) = some sa →
      truthyN t.receiver_account_id = false →
      cancel_transfer tid uid db = .ok
        { db with
          accounts := updateFirst (fun a => a.id = t.sender_account_id)
            (fun a => { a with balance := a.balance + t.amount }) db.accounts
          transactions := updateFirst (cancelQuery tid uid)
            (fun u => { u with status := .cancelled }) db.transactions }) := by
  refine ⟨?_, ?_, ?_, ?_, ?_⟩
  · intro tid uid db db' h
    unfold cancel_transfer at h
    cases hf : db.transactions.find? (cancelQuery tid uid) with
    | none => rw [hf] at h; cases h
    | some t =>
      rw [hf] at h
      split at h
      · rename_i heq
        exact absurd heq (by simp)
      · rename_i transaction heq
        rw [Option.some.injEq] at heq
        subst heq
        split at h
        · cases h
        · rename_i hcond
          refine ⟨t, rfl, ?_⟩
          simp only [Bool.not_eq_true', Bool.or_eq_false_iff, decide_eq_false_iff_not] at hcond
          tauto
  · intro tid uid db hf
    unfold cancel_transfer
    rw [hf]
  · intro tid uid db t hf h1 h2
    unfold cancel_transfer
    rw [hf]
    simp [h1, h2]
  · intro tid uid db t sa ra hf hst hsa hrid hra
    unfold cancel_transfer
    rw [hf]
    simp only [hst, hsa, hrid, hra]
    simp
  · intro tid uid db t sa hf hst hsa hrid
    unfold cancel_transfer
    rw [hf]
    simp only [hst, hsa, hrid]
    simp

theorem cancel_transfer_behaviour_witness :
    cancel_transfer 100 1 dbProcInt = .ok
      { dbProcInt with
        accounts := updateFirst (fun a => txnProcInt.receiver_account_id = some a.id)
          (fun a => { a with balance := a.balance - txnProcInt.amount })
          (updateFirst (fun a => a.id = txnProcInt.sender_account_id)
            (fun a => { a with balance := a.balance + txnProcInt.amount }) dbProcInt.accounts)
        transactions := updateFirst (cancelQuery 100 1)
          (fun u => { u with status := .cancelled }) dbProcInt.transactions } :=
  cancel_transfer_behaviour.2.2.2.1 100 1 dbProcInt txnProcInt
    { accountA with balance := 700 } { accountB with balance := 300 }
    (by decide) (by decide) (by decide) (by decide) (by decide)

theorem char_of_toNat_eq {c d : Char} (h : c.toNat = d.toNat) : c = d :=
  calc c = Char.ofNat c.toNat := (Char.ofNat_toNat c).symm
    _ = Char.ofNat d.toNat := by rw [h]
    _ = d := Char.ofNat_toNat d

theorem digitVal_inj {c d : Char} (hc : c.isDigit = true) (hd : d.isDigit = true) :
    digitVal c = digitVal d ↔ c = d := by
  constructor
  · intro h
    simp only [Char.isDigit, Bool.and_eq_true, decide_eq_true_eq] at hc hd
    apply char_of_toNat_eq
    unfold digitVal at h
    have h0 : ('0' : Char).toNat = 48 := rfl
    have hc1 : 48 ≤ c.toNat := hc.1
    have hd1 : 48 ≤ d.toNat := hd.1
    omega
  · intro h; rw [h]

theorem exists_eleven {l : List Char} (h : l.length = 11) :
    ∃ a b c d e f g h' i j k, l = [a, b, c, d, e, f, g, h', i, j, k] := by
  obtain ⟨c0, l, rfl⟩ := l.exists_of_length_succ (show l.length = 10 + 1 by omega)
  replace h : l.length = 10 := by simp only [List.length_cons] at h; omega
  obtain ⟨c1, l, rfl⟩ := l.exists_of_length_succ (show l.length = 9 + 1 by omega)
  replace h : l.length = 9 := by simp only [List.length_cons] at h; omega
  obtain ⟨c2, l, rfl⟩ := l.exists_of_length_succ (show l.length = 8 + 1 by omega)
  replace h : l.length = 8 := by simp only [List.length_cons] at h; omega
  obtain ⟨c3, l, rfl⟩ := l.exists_of_length_succ (show l.length = 7 + 1 by omega)
  replace h : l.length = 7 := by simp only [List.length_cons] at h; omega
  obtain ⟨c4, l, rfl⟩ := l.exists_of_length_succ (show l.length = 6 + 1 by omega)
  replace h : l.length = 6 := by simp only [List.length_cons] at h; omega
  obtain ⟨c5, l, rfl⟩ := l.exists_of_length_succ (show l.length = 5 + 1 by omega)
  replace h : l.length = 5 := by simp only [List.length_cons] at h; omega
  obtain ⟨c6, l, rfl⟩ := l.exists_of_length_succ (show l.length = 4 + 1 by omega)
  replace h : l.length = 4 := by simp only [List.length_cons] at h; omega
  obtain ⟨c7, l, rfl⟩ := l.exists_of_length_succ (show l.length = 3 + 1 by omega)
  replace h : l.length = 3 := by simp only [List.length_cons] at h; omega
  obtain ⟨c8, l, rfl⟩ := l.exists_of_length_succ (show l.length = 2 + 1 by omega)
  replace h : l.length = 2 := by simp only [List.length_cons] at h; omega
  obtain ⟨c9, l, rfl⟩ := l.exists_of_length_succ (show l.length = 1 + 1 by omega)
  replace h : l.length = 1 := by simp only [List.length_cons] at h; omega
  obtain ⟨c10, l, rfl⟩ := l.exists_of_length_succ (show l.length = 0 + 1 by omega)
  replace h : l.length = 0 := by simp only [List.length_cons] at h; omega
  rw [List.length_eq_zero] at h
  subst h
  exact ⟨c0, c1, c2, c3, c4, c5, c6, c7, c8, c9, c10, rfl⟩




/-- C8: `validate_cpf` returns true exactly when, after removing all
non-digit characters, the input has 11 digits that are not all identical,
digit 9 matches the MOD-11 check digit over weights 10..2 of positions 0..8,
and digit 10 matches the one over weights 11..2 of positions 0..9 — the
specification predicate `cpfSpecProp` stated over digit values. -/
theorem validate_cpf_iff_spec (s : List Char) :
    validate_cpf s = true ↔ cpfSpecProp s := by
  by_cases hs : s = []
  · subst hs; simp [validate_cpf, cpfSpecProp, cpfDigits]
  · by_cases hlen : (onlyDigits s).length = 11
    case neg =>
      have hlen' : ¬((s.filter Char.isDigit).map digitVal).length = 11 := by
        simpa [onlyDigits] using hlen
      simp only [validate_cpf, if_neg hs, if_pos hlen, cpfSpecProp, cpfDigits,
        Bool.false_eq_true, false_iff]
      intro hR
      exact hlen' hR.1
    case pos =>
      obtain ⟨c0, c1, c2, c3, c4, c5, c6, c7, c8, c9, c10, hc⟩ := exists_eleven hlen
      have hdig : ∀ c ∈ onlyDigits s, c.isDigit = true := by
        intro c hcmem
        exact (List.mem_filter.mp hcmem).2
      rw [hc] at hdig
      have h0 : c0.isDigit = true := hdig c0 (by simp)
      have h1 : c1.isDigit = true := hdig c1 (by simp)
      have h2 : c2.isDigit = true := hdig c2 (by simp)
      have h3 : c3.isDigit = true := hdig c3 (by simp)
      have h4 : c4.isDigit = true := hdig c4 (by simp)
      have h5 : c5.isDigit = true := hdig c5 (by simp)
      have h6 : c6.isDigit = true := hdig c6 (by simp)
      have h7 : c7.isDigit = true := hdig c7 (by simp)
      have h8 : c8.isDigit = true := hdig c8 (by simp)
      have h9 : c9.isDigit = true := hdig c9 (by simp)
      have h10 : c10.isDigit = true := hdig c10 (by simp)
      have hc2 : s.filter Char.isDigit = [c0, c1, c2, c3, c4, c5, c6, c7, c8, c9, c10] := hc
      simp only [validate_cpf, if_neg hs, cpfSpecProp, cpfDigits, onlyDigits, hc2]
      simp only [allSame, weightedSum, List.all_cons, List.all_nil, List.getD,
        List.map_cons, List.map_nil, List.length_cons, List.length_nil,
        Finset.sum_range_succ, Finset.sum_range_zero, List.headD,
        List.zipWith, List.sum_cons, List.sum_nil, List.getD_cons_zero,
        List.getD_cons_succ]
      simp [digitVal_inj h1 h0, digitVal_inj h2 h0, digitVal_inj h3 h0,
        digitVal_inj h4 h0, digitVal_inj h5 h0, digitVal_inj h6 h0,
        digitVal_inj h7 h0, digitVal_inj h8 h0, digitVal_inj h9 h0,
        digitVal_inj h10 h0, List.get?]
      ring_nf
      tauto

end SepaBrl
namespace SepaBrl

theorem digitChar_isDigit (k : Nat) : (digitChar k).isDigit = true := by
  match k with
  | 0 | 1 | 2 | 3 | 4 | 5 | 6 | 7 | 8 | 9 => decide
  | k + 10 => rfl

theorem digitVal_digitChar {k : Nat} (h : k < 10) : digitVal (digitChar k) = k := by
  match k, h with
  | 0, _ | 1, _ | 2, _ | 3, _ | 4, _ | 5, _ | 6, _ | 7, _ | 8, _ | 9, _ => decide

theorem listVal_append_singleton (ds : List Char) (c : Char) :
    listVal (ds ++ [c]) = 10 * listVal ds + digitVal c := by
  unfold listVal
  rw [List.foldl_append]
  rfl

theorem natCharsAux_spec :
    ∀ f n, n < 10 ^ f →
      listVal (natCharsAux (f + 1) n) = n
      ∧ natCharsAux (f + 1) n ≠ []
      ∧ ∀ c ∈ natCharsAux (f + 1) n, c.isDigit = true := by
  intro f
  induction f with
  | zero =>
    intro n hn
    have h10 : n < 10 := by omega
    rw [natCharsAux, if_pos h10]
    refine ⟨?_, by simp, by simp [digitChar_isDigit]⟩
    simp [listVal, digitVal_digitChar h10]
  | succ f ih =>
    intro n hn
    by_cases h10 : n < 10
    · rw [natCharsAux, if_pos h10]
      refine ⟨?_, by simp, by simp [digitChar_isDigit]⟩
      simp [listVal, digitVal_digitChar h10]
    · rw [natCharsAux, if_neg h10]
      have hrec : n / 10 < 10 ^ f := by
        rw [pow_succ] at hn
        omega
      obtain ⟨hv, hne, hd⟩ := ih (n / 10) hrec
      refine ⟨?_, by simp, ?_⟩
      · rw [listVal_append_singleton, hv, digitVal_digitChar (Nat.mod_lt _ (by norm_num))]
        omega
      · intro c hc
        rcases List.mem_append.mp hc with h | h
        · exact hd c h
        · simp only [List.mem_singleton] at h
          subst h
          exact digitChar_isDigit _

theorem natCharsAux_fuel_irrel :
    ∀ f g n, n < 10 ^ f → n < 10 ^ g →
      natCharsAux (f + 1) n = natCharsAux (g + 1) n := by
  intro f
  induction f with
  | zero =>
    intro g n hf hg
    have h10 : n < 10 := by omega
    cases g with
    | zero => rfl
    | succ g => rw [natCharsAux, if_pos h10, natCharsAux, if_pos h10]
  | succ f ih =>
    intro g n hf hg
    by_cases h10 : n < 10
    · cases g with
      | zero => rw [natCharsAux, if_pos h10, natCharsAux, if_pos h10]
      | succ g => rw [natCharsAux, if_pos h10, natCharsAux, if_pos h10]
    · cases g with
      | zero => omega
      | succ g =>
        rw [natCharsAux, if_neg h10]
        conv_rhs => rw [natCharsAux]
        rw [if_neg h10]
        have hrecf : n / 10 < 10 ^ f := by
          rw [pow_succ] at hf
          omega
        have hrecg : n / 10 < 10 ^ g := by
          rw [pow_succ] at hg
          omega
        rw [ih g (n / 10) hrecf hrecg]

theorem natChars_spec (n : Nat) :
    listVal (natChars n) = n ∧ natChars n ≠ []
      ∧ ∀ c ∈ natChars n, c.isDigit = true :=
  natCharsAux_spec n n (Nat.lt_pow_self (by norm_num) n)

theorem natChars_eq_fuel (n g : Nat) (hg : n < 10 ^ g) :
    natChars n = natCharsAux (g + 1) n :=
  natCharsAux_fuel_irrel n g n (Nat.lt_pow_self (by norm_num) n) hg

end SepaBrl
namespace SepaBrl

theorem chunk3_join : ∀ l : List Char, (chunk3 l).flatten = l
  | [] => rfl
  | [a] => rfl
  | [a, b] => rfl
  | a :: b :: c :: rest => by
    rw [chunk3]
    simp only [List.flatten_cons]
    rw [chunk3_join rest]
    rfl

theorem joinComma_filter :
    ∀ gs : List (List Char), (∀ g ∈ gs, ∀ c ∈ g, ¬c = ',') →
      (joinComma gs).filter (fun c => c ≠ ',') = gs.flatten
  | [], _ => rfl
  | [g], h => by
    simp only [joinComma, List.flatten_cons, List.flatten_nil, List.append_nil]
    rw [List.filter_eq_self]
    intro c hc
    simpa using h g (by simp) c hc
  | g :: g' :: gs, h => by
    rw [joinComma]
    simp only [List.filter_append, List.flatten_cons]
    rw [List.filter_cons_of_neg (by simp)]
    rw [List.filter_eq_self.mpr (fun c hc => by simpa using h g (by simp) c hc)]
    have ih := joinComma_filter (g' :: gs)
      (fun gg hgg c hc => h gg (List.mem_cons_of_mem g hgg) c hc)
    rw [ih]
    simp

theorem mem_joinComma :
    ∀ (gs : List (List Char)) (c : Char), c ∈ joinComma gs →
      c = ',' ∨ ∃ g ∈ gs, c ∈ g
  | [], c, h => by cases h
  | [g], c, h => by
    right
    exact ⟨g, by simp, by simpa [joinComma] using h⟩
  | g :: g' :: gs, c, h => by
    rw [joinComma] at h
    rcases List.mem_append.mp h with h | h
    · exact Or.inr ⟨g, by simp, h⟩
    · rcases List.mem_cons.mp h with h | h
      · exact Or.inl h
      · rcases mem_joinComma (g' :: gs) c h with h | ⟨gg, hgg, hc⟩
        · exact Or.inl h
        · exact Or.inr ⟨gg, List.mem_cons_of_mem g hgg, hc⟩

theorem mem_groupThousands {s : List Char} {c : Char} (h : c ∈ groupThousands s) :
    c = ',' ∨ c ∈ s := by
  unfold groupThousands at h
  rw [List.mem_reverse] at h
  rcases mem_joinComma _ c h with h | ⟨g, hg, hc⟩
  · exact Or.inl h
  · right
    rw [← List.mem_reverse]
    rw [← chunk3_join s.reverse]
    exact List.mem_flatten.mpr ⟨g, hg, hc⟩

theorem groupThousands_filter {s : List Char} (h : ∀ c ∈ s, ¬c = ',') :
    (groupThousands s).filter (fun c => c ≠ ',') = s := by
  unfold groupThousands
  rw [List.filter_reverse]
  rw [joinComma_filter]
  · rw [chunk3_join, List.reverse_reverse]
  · intro g hg c hc
    apply h
    rw [← List.mem_reverse]
    rw [← chunk3_join s.reverse]
    exact List.mem_flatten.mpr ⟨g, hg, hc⟩

end SepaBrl
namespace SepaBrl

theorem pyReplaceAux_no_occurrence (h0 : Char) (tl new : List Char) :
    ∀ f s, h0 ∉ s → pyReplaceAux (h0 :: tl) new f s = s := by
  intro f
  induction f with
  | zero => intro s hs; cases s <;> rfl
  | succ f ih =>
    intro s hs
    cases s with
    | nil => rfl
    | cons c rest =>
      rw [pyReplaceAux]
      rw [if_neg, ih rest (fun hr => hs (List.mem_cons_of_mem c hr))]
      intro hpre
      rcases List.isPrefixOf_iff_prefix.mp hpre with ⟨t, ht⟩
      apply hs
      rw [← ht]
      simp

theorem pyReplace_no_occurrence {h0 : Char} {tl s : List Char} (new : List Char)
    (hs : h0 ∉ s) : pyReplace s (h0 :: tl) new = s := by
  unfold pyReplace
  rw [if_neg (by simp), pyReplaceAux_no_occurrence h0 tl new s.length s hs]

theorem pyReplaceAux_delete_char (c : Char) :
    ∀ f s, s.length ≤ f → pyReplaceAux [c] [] f s = s.filter (fun x => x ≠ c) := by
  intro f
  induction f with
  | zero =>
    intro s hs
    rw [Nat.le_zero, List.length_eq_zero] at hs
    subst hs
    rfl
  | succ f ih =>
    intro s hs
    cases s with
    | nil => rfl
    | cons x rest =>
      rw [pyReplaceAux]
      simp only [List.length_cons, Nat.add_le_add_iff_right] at hs
      by_cases hx : x = c
      · subst hx
        rw [if_pos (by simp [List.isPrefixOf])]
        simp only [List.length_cons, List.length_nil, List.nil_append,
          Nat.zero_add, Nat.sub_self, List.drop_zero]
        rw [ih rest hs, List.filter_cons_of_neg (by simp)]
      · rw [if_neg (by simp [List.isPrefixOf]; exact fun hcx => hx hcx.symm)]
        rw [ih rest hs]
        rw [List.filter_cons_of_pos (by simp [hx])]

end SepaBrl
namespace SepaBrl

theorem pyReplace_delete_char (c : Char) (s : List Char) :
    pyReplace s [c] [] = s.filter (fun x => x ≠ c) := by
  unfold pyReplace
  rw [if_neg (by simp), pyReplaceAux_delete_char c s.length s le_rfl]

theorem pyReplaceAux_map_char (c d : Char) :
    ∀ f s, s.length ≤ f →
      pyReplaceAux [c] [d] f s = s.map (fun x => if x = c then d else x) := by
  intro f
  induction f with
  | zero =>
    intro s hs
    rw [Nat.le_zero, List.length_eq_zero] at hs
    subst hs
    rfl
  | succ f ih =>
    intro s hs
    cases s with
    | nil => rfl
    | cons x rest =>
      rw [pyReplaceAux]
      simp only [List.length_cons, Nat.add_le_add_iff_right] at hs
      by_cases hx : x = c
      · subst hx
        rw [if_pos (by simp [List.isPrefixOf])]
        simp only [List.length_cons, List.length_nil, Nat.zero_add, Nat.sub_self,
          List.drop_zero, List.map_cons, if_pos rfl, List.singleton_append]
        rw [ih rest hs]
        simp
      · rw [if_neg (by simp [List.isPrefixOf]; exact fun hcx => hx hcx.symm)]
        rw [ih rest hs]
        simp [hx]

theorem pyReplace_map_char (c d : Char) (s : List Char) :
    pyReplace s [c] [d] = s.map (fun x => if x = c then d else x) := by
  unfold pyReplace
  rw [if_neg (by simp), pyReplaceAux_map_char c d s.length s le_rfl]

theorem map_char_id {c : Char} (d : Char) {s : List Char} (h : c ∉ s) :
    s.map (fun x => if x = c then d else x) = s := by
  induction s with
  | nil => rfl
  | cons x rest ih =>
    simp only [List.map_cons]
    rw [if_neg (by intro hx; subst hx; exact h (List.mem_cons_self _ _)),
      ih (fun hr => h (List.mem_cons_of_mem x hr))]

theorem pySplit_no_sep {sep : Char} :
    ∀ {v : List Char}, sep ∉ v → pySplit sep v = [v]
  | [], _ => rfl
  | x :: rest, h => by
    rw [pySplit, if_neg (by intro hx; subst hx; exact h (List.mem_cons_self _ _))]
    rw [pySplit_no_sep (fun hr => h (List.mem_cons_of_mem x hr))]

theorem pySplit_two {sep : Char} {u v : List Char} (hu : sep ∉ u) (hv : sep ∉ v) :
    pySplit sep (u ++ sep :: v) = [u, v] := by
  induction u with
  | nil =>
    rw [List.nil_append, pySplit, if_pos rfl, pySplit_no_sep hv]
  | cons x rest ih =>
    rw [List.cons_append, pySplit,
      if_neg (by intro hx; subst hx; exact hu (List.mem_cons_self _ _))]
    rw [ih (fun hr => hu (List.mem_cons_of_mem x hr))]

end SepaBrl
namespace SepaBrl

theorem rsplitComma_spec {a b : List Char} (hb : ',' ∉ b) :
    rsplitComma (a ++ ',' :: b) = (a, b) := by
  unfold rsplitComma
  have hrev : (a ++ ',' :: b).reverse = b.reverse ++ ',' :: a.reverse := by
    simp
  simp only [hrev]
  have hp : ∀ c ∈ b.reverse, (fun c => decide (c ≠ ',')) c = true := by
    intro c hc
    simp only [decide_eq_true_eq, ne_eq]
    intro h
    subst h
    exact hb (List.mem_reverse.mp hc)
  rw [List.takeWhile_append_of_pos hp, List.dropWhile_append_of_pos hp]
  rw [List.takeWhile_cons_of_neg (by simp), List.dropWhile_cons_of_neg (by simp)]
  simp

theorem ne_char_of_toNat {c d : Char} (h : c.toNat ≠ d.toNat) : ¬c = d :=
  fun hh => h (by rw [hh])

theorem isDigit_bounds {c : Char} (h : c.isDigit = true) :
    48 ≤ c.toNat ∧ c.toNat ≤ 57 := by
  simp only [Char.isDigit, Bool.and_eq_true, decide_eq_true_eq] at h
  exact h

theorem isDigit_not_whitespace {c : Char} (h : c.isDigit = true) :
    c.isWhitespace = false := by
  obtain ⟨h1, h2⟩ := isDigit_bounds h
  simp only [Char.isWhitespace, Bool.or_eq_false_iff, decide_eq_false_iff_not]
  refine ⟨⟨⟨?_, ?_⟩, ?_⟩, ?_⟩
  · exact ne_char_of_toNat (by have hx : (' ' : Char).toNat = 32 := rfl; omega)
  · exact ne_char_of_toNat (by have hx : ('\t' : Char).toNat = 9 := rfl; omega)
  · exact ne_char_of_toNat (by have hx : ('\r' : Char).toNat = 13 := rfl; omega)
  · exact ne_char_of_toNat (by have hx : ('\n' : Char).toNat = 10 := rfl; omega)

theorem toLower_of_digit {c : Char} (h : c.isDigit = true) : c.toLower = c := by
  obtain ⟨h1, h2⟩ := isDigit_bounds h
  unfold Char.toLower
  rw [if_neg]
  omega

end SepaBrl
namespace SepaBrl

theorem dropWhile_id_of_head {p : Char → Bool} {s : List Char}
    (h : ∀ c, s.head? = some c → p c = false) : s.dropWhile p = s := by
  cases s with
  | nil => rfl
  | cons c rest =>
    exact List.dropWhile_cons_of_neg (by rw [h c rfl]; simp)

theorem takeWhile_digits_append {ds rest : List Char}
    (hd : ∀ c ∈ ds, c.isDigit = true) :
    (ds ++ '.' :: rest).takeWhile Char.isDigit = ds := by
  rw [List.takeWhile_append_of_pos hd, List.takeWhile_cons_of_neg (by decide)]
  simp

theorem stripWs_id {s : List Char}
    (h1 : ∀ c, s.head? = some c → c.isWhitespace = false)
    (h2 : ∀ c, s.getLast? = some c → c.isWhitespace = false) :
    ((s.dropWhile Char.isWhitespace).reverse.dropWhile Char.isWhitespace).reverse = s := by
  rw [dropWhile_id_of_head h1]
  rw [dropWhile_id_of_head (by
    intro c hc
    rw [List.head?_reverse] at hc
    exact h2 c hc)]
  exact List.reverse_reverse s

end SepaBrl
namespace SepaBrl
end SepaBrl
namespace SepaBrl

theorem pyDecimalOfString_digits (neg : Bool) (ds fs : List Char)
    (hne : ds ≠ []) (hd : ∀ c ∈ ds, c.isDigit = true)
    (hfne : fs ≠ []) (hf : ∀ c ∈ fs, c.isDigit = true) :
    pyDecimalOfString ((if neg then ['-'] else []) ++ ds ++ '.' :: fs)
      = some (.num ((if neg then (-1 : ℚ) else 1)
          * (listVal ds + listVal fs / 10 ^ fs.length))) := by
  obtain ⟨d0, ds', rfl⟩ := List.exists_cons_of_ne_nil hne
  have hd0 : d0.isDigit = true := hd d0 (by simp)
  obtain ⟨fl, fsi, hfs⟩ : ∃ b L, fs = L ++ [b] := by
    rcases List.eq_nil_or_concat fs with h | ⟨L, b, h⟩
    · exact absurd h hfne
    · exact ⟨b, L, by simpa using h⟩
  have hfl : fl.isDigit = true := hf fl (by simp [hfs])
  obtain ⟨hb1, hb2⟩ := isDigit_bounds hd0
  unfold pyDecimalOfString
  rw [stripWs_id]
  rotate_left
  · intro c hc
    cases neg with
    | true => simp at hc; rw [← hc]; decide
    | false =>
      simp at hc
      rw [← hc]
      exact isDigit_not_whitespace hd0
  · intro c hc
    subst hfs
    have hre : (if neg = true then ['-'] else []) ++ (d0 :: ds') ++ '.' :: (fsi ++ [fl])
        = ((if neg = true then ['-'] else []) ++ (d0 :: ds') ++ '.' :: fsi) ++ [fl] := by
      simp
    rw [hre, List.getLast?_concat] at hc
    rw [Option.some.injEq] at hc
    rw [← hc]
    exact isDigit_not_whitespace hfl
  -- the sign dispatch
  have hasc : asciiLower (d0 :: (ds' ++ '.' :: fs)) = d0 :: asciiLower (ds' ++ '.' :: fs) := by
    simp [asciiLower, toLower_of_digit hd0]
  have hi : ('i' : Char).toNat = 105 := rfl
  have hn : ('n' : Char).toNat = 110 := rfl
  have hs : ('s' : Char).toNat = 115 := rfl
  have hcond1 : ¬(asciiLower (d0 :: (ds' ++ '.' :: fs)) = ['i', 'n', 'f']
      ∨ asciiLower (d0 :: (ds' ++ '.' :: fs)) = ['i', 'n', 'f', 'i', 'n', 'i', 't', 'y']) := by
    rw [hasc]
    rintro (h | h) <;>
      (rw [List.cons.injEq] at h
       have := congrArg Char.toNat h.1
       omega)
  have hcond2 : ¬((asciiLower (d0 :: (ds' ++ '.' :: fs))).take 3 = ['n', 'a', 'n']
      ∧ ((asciiLower (d0 :: (ds' ++ '.' :: fs))).drop 3).all Char.isDigit = true) := by
    rw [hasc]
    rintro ⟨h, -⟩
    rw [List.take_succ_cons, List.cons.injEq] at h
    have := congrArg Char.toNat h.1
    omega
  have hcond3 : ¬((asciiLower (d0 :: (ds' ++ '.' :: fs))).take 4 = ['s', 'n', 'a', 'n']
      ∧ ((asciiLower (d0 :: (ds' ++ '.' :: fs))).drop 4).all Char.isDigit = true) := by
    rw [hasc]
    rintro ⟨h, -⟩
    rw [List.take_succ_cons, List.cons.injEq] at h
    have := congrArg Char.toNat h.1
    omega
  have hmant : splitMantissa (d0 :: (ds' ++ '.' :: fs))
      = some ((listVal (d0 :: ds') : ℚ) + (listVal fs : ℚ) / (10 : ℚ) ^ fs.length, []) := by
    simp only [splitMantissa]
    rw [show d0 :: (ds' ++ '.' :: fs) = (d0 :: ds') ++ '.' :: fs from rfl]
    rw [takeWhile_digits_append hd, List.drop_left]
    rw [if_pos (show ('.' :: fs : List Char).head? = some '.' from rfl)]
    rw [show ('.' :: fs : List Char).tail = fs from rfl]
    rw [List.takeWhile_eq_self_iff.mpr (fun c hc => hf c hc)]
    rw [if_neg (show ¬(((d0 :: ds').isEmpty && fs.isEmpty) = true) from by simp)]
    rw [List.drop_length]
  cases neg with
  | true =>
    simp only [if_true, List.singleton_append, List.cons_append, List.head?_cons,
      List.tail_cons]
    rw [if_neg (show ¬(some '-' = some '+') from by decide)]
    dsimp only
    try simp only [List.nil_append, List.cons_append]
    rw [if_neg hcond1, if_neg hcond2, if_neg hcond3, hmant]
    simp only [splitExponent]
    norm_num
  | false =>
    simp only [Bool.false_eq_true, if_false, List.nil_append, List.cons_append,
      List.head?_cons]
    rw [if_neg (show ¬(some d0 = some '+') from by
      intro h
      rw [Option.some.injEq] at h
      have h43 : ('+' : Char).toNat = 43 := rfl
      have := congrArg Char.toNat h
      omega)]
    rw [if_neg (show ¬(some d0 = some '-') from by
      intro h
      rw [Option.some.injEq] at h
      have h45 : ('-' : Char).toNat = 45 := rfl
      have := congrArg Char.toNat h
      omega)]
    dsimp only
    try simp only [List.nil_append, List.cons_append]
    rw [if_neg hcond1, if_neg hcond2, if_neg hcond3, hmant]
    simp only [splitExponent]
    norm_num

end SepaBrl
namespace SepaBrl

theorem roundHalfEven_abs_le (q : ℚ) : |(roundHalfEven q : ℚ) - q| ≤ 1 / 2 := by
  unfold roundHalfEven
  have h0 : (0 : ℚ) ≤ q - ⌊q⌋ := by
    have := Int.floor_le q
    linarith
  have h1 : q - ⌊q⌋ < 1 := by
    have := Int.lt_floor_add_one q
    linarith
  split_ifs with ha hb hc <;>
    (rw [abs_le]; push_cast; constructor <;> linarith)

theorem roundHalfEven_eq_of_abs_lt {q : ℚ} {n : ℤ} (h : |q - n| < 1 / 2) :
    roundHalfEven q = n := by
  rw [abs_lt] at h
  obtain ⟨h1, h2⟩ := h
  unfold roundHalfEven
  by_cases hq : (n : ℚ) ≤ q
  · have hf : ⌊q⌋ = n := Int.floor_eq_iff.mpr ⟨hq, by linarith⟩
    rw [hf, if_pos (by linarith)]
  · have hf : ⌊q⌋ = n - 1 := by
      apply Int.floor_eq_iff.mpr
      constructor <;> push_cast <;> linarith
    rw [hf]
    rw [if_neg (by push_cast; linarith), if_pos (by push_cast; linarith)]
    omega

theorem floatRound_error {q : ℚ} (hq : q ≠ 0) :
    |floatRound q - q| ≤ |q| / 2 ^ 53 := by
  unfold floatRound
  rw [if_neg hq]
  have habs : 0 < |q| := abs_pos.mpr hq
  have h2e : (2 : ℚ) ^ Int.log 2 |q| ≤ |q| := Int.zpow_log_le_self (by norm_num) habs
  set e := Int.log 2 |q| with he
  have hqy : q * 2 ^ (52 - e) * 2 ^ (e - 52) = q := by
    rw [mul_assoc, ← zpow_add₀ (two_ne_zero)]
    norm_num
  have hsub : (roundHalfEven (q * 2 ^ (52 - e)) : ℚ) * 2 ^ (e - 52) - q
      = ((roundHalfEven (q * 2 ^ (52 - e)) : ℚ) - q * 2 ^ (52 - e)) * 2 ^ (e - 52) := by
    rw [sub_mul, hqy]
  rw [hsub, abs_mul]
  have hpos : (0 : ℚ) < 2 ^ (e - 52) := zpow_pos (by norm_num) _
  rw [abs_of_pos hpos]
  calc |(roundHalfEven (q * 2 ^ (52 - e)) : ℚ) - q * 2 ^ (52 - e)| * 2 ^ (e - 52)
      ≤ (1 / 2) * 2 ^ (e - 52) := by
        exact mul_le_mul_of_nonneg_right (roundHalfEven_abs_le _) (le_of_lt hpos)
    _ = 2 ^ e * 2 ^ (-53 : ℤ) := by
        rw [← zpow_add₀ (two_ne_zero : (2:ℚ) ≠ 0) e (-53 : ℤ)]
        rw [show (1 : ℚ) / 2 = 2 ^ (-1 : ℤ) by norm_num]
        rw [← zpow_add₀ (two_ne_zero : (2:ℚ) ≠ 0) (-1 : ℤ) (e - 52)]
        congr 1
        ring
    _ ≤ |q| * 2 ^ (-53 : ℤ) := by
        exact mul_le_mul_of_nonneg_right h2e (le_of_lt (zpow_pos (by norm_num) _))
    _ = |q| / 2 ^ 53 := by
        rw [zpow_neg, div_eq_mul_inv]
        norm_num

end SepaBrl

namespace SepaBrl

theorem floatRound_zero : floatRound 0 = 0 := by
  unfold floatRound
  rw [if_pos rfl]

theorem roundHalfEven_centavos {n : ℤ} (hb : |n| ≤ 10 ^ 15) :
    roundHalfEven (100 * floatRound ((n : ℚ) / 100)) = n
    ∧ ((floatRound ((n : ℚ) / 100) < 0) ↔ n < 0) := by
  by_cases hn0 : n = 0
  · subst hn0
    simp only [Int.cast_zero, zero_div, floatRound_zero, mul_zero]
    refine ⟨roundHalfEven_eq_of_abs_lt (by norm_num), by norm_num⟩
  · set q : ℚ := (n : ℚ) / 100 with hq
    have hq0 : q ≠ 0 := div_ne_zero (Int.cast_ne_zero.mpr hn0) (by norm_num)
    have herr : |floatRound q - q| ≤ |q| / 2 ^ 53 := floatRound_error hq0
    have hqb : |q| ≤ 10 ^ 13 := by
      rw [hq, abs_div]
      have hcast : |(n : ℚ)| ≤ 10 ^ 15 := by
        rw [← Int.cast_abs]
        exact_mod_cast hb
      rw [abs_of_pos (by norm_num : (0:ℚ) < 100)]
      linarith
    have hsm2 : |q| / 2 ^ 53 < |q| := by
      rw [div_lt_iff₀ (by norm_num : (0:ℚ) < 2 ^ 53)]
      nlinarith [abs_pos.mpr hq0]
    have hd := abs_le.mp herr
    constructor
    · apply roundHalfEven_eq_of_abs_lt
      have h100 : (n : ℚ) = 100 * q := by
        rw [hq]
        ring
      rw [h100, show 100 * floatRound q - 100 * q = 100 * (floatRound q - q) by ring,
        abs_mul, abs_of_pos (by norm_num : (0:ℚ) < 100)]
      have hfin : 100 * (|q| / 2 ^ 53) < 1 / 2 := by
        have hb2 : 100 * |q| ≤ 10 ^ 15 := by nlinarith
        have hnum : (10:ℚ) ^ 15 < 1 / 2 * 2 ^ 53 := by norm_num
        rw [show 100 * (|q| / 2 ^ 53) = 100 * |q| / 2 ^ 53 by ring,
          div_lt_iff₀ (by norm_num : (0:ℚ) < 2 ^ 53)]
        linarith
      linarith
    · have hqsign : q < 0 ↔ n < 0 := by
        constructor
        · intro h
          by_contra hge
          push_neg at hge
          have h0 : (0:ℚ) ≤ (n:ℚ) := by exact_mod_cast hge
          have : 0 ≤ q := by
            rw [hq]
            exact div_nonneg h0 (by norm_num)
          linarith
        · intro h
          have h0 : (n:ℚ) < 0 := by exact_mod_cast h
          rw [hq]
          exact div_neg_of_neg_of_pos h0 (by norm_num)
      constructor
      · intro hfr
        rw [← hqsign]
        by_contra hge
        push_neg at hge
        have hgt : 0 < q := lt_of_le_of_ne hge (Ne.symm hq0)
        have habs : |q| = q := abs_of_pos hgt
        have h1 : -(|q| / 2 ^ 53) ≤ floatRound q - q := hd.1
        linarith
      · intro hn
        have hqneg : q < 0 := hqsign.mpr hn
        have habs : |q| = -q := abs_of_neg hqneg
        have h2 : floatRound q - q ≤ |q| / 2 ^ 53 := hd.2
        linarith

end SepaBrl

namespace SepaBrl

theorem pyFormatFloat2_eq (d : ℚ) :
    pyFormatFloat2 d =
      (if d < 0 then ['-'] else []) ++
        groupThousands (natChars ((roundHalfEven (100 * d)).natAbs / 100)) ++
        '.' :: [digitChar ((roundHalfEven (100 * d)).natAbs / 10 % 10),
          digitChar ((roundHalfEven (100 * d)).natAbs % 10)] := by
  unfold pyFormatFloat2
  by_cases h : d < 0 <;> simp [h]

theorem dot_not_mem_group (m : Nat) :
    '.' ∉ groupThousands (natChars m) := by
  intro hc
  rcases mem_groupThousands hc with h | h
  · exact absurd h (by decide)
  · exact absurd ((natChars_spec m).2.2 _ h) (by decide)

theorem dot_not_mem_d2 (a : Nat) :
    '.' ∉ [digitChar (a / 10 % 10), digitChar (a % 10)] := by
  intro hmem
  have hdig : ('.' : Char).isDigit = true := by
    rcases List.mem_cons.mp hmem with h | hmem2
    · rw [h]; exact digitChar_isDigit _
    · rcases List.mem_cons.mp hmem2 with h | h3
      · rw [h]; exact digitChar_isDigit _
      · cases h3
  exact absurd hdig (by decide)

theorem format_currency_eq (x : ℚ) :
    format_currency_brl x = "R$ ".data ++
      ((if floatRound x < 0 then ['-'] else []) ++
        (groupThousands (natChars ((roundHalfEven (100 * floatRound x)).natAbs / 100))).map
          (fun c => if c = ',' then '.' else c) ++
        ',' :: [digitChar ((roundHalfEven (100 * floatRound x)).natAbs / 10 % 10),
          digitChar ((roundHalfEven (100 * floatRound x)).natAbs % 10)]) := by
  unfold format_currency_brl
  dsimp only
  rw [pyFormatFloat2_eq]
  set a := (roundHalfEven (100 * floatRound x)).natAbs with ha
  set g := groupThousands (natChars (a / 100)) with hgdef
  set d2 : List Char := [digitChar (a / 10 % 10), digitChar (a % 10)] with hd2
  have hdotg : '.' ∉ g := dot_not_mem_group (a / 100)
  have hdotd : '.' ∉ d2 := dot_not_mem_d2 a
  by_cases hneg : floatRound x < 0
  · rw [if_pos hneg]
    have hre : ['-'] ++ g ++ '.' :: d2 = ('-' :: g) ++ '.' :: d2 := rfl
    rw [hre, pySplit_two (by
      intro hm
      rcases List.mem_cons.mp hm with h | h
      · exact absurd h (by decide)
      · exact hdotg h) hdotd]
    dsimp only
    by_cases hcomma : ',' ∈ ('-' :: g)
    · rw [if_pos hcomma, pyReplace_map_char]
      simp
    · rw [if_neg hcomma]
      rw [show ('-' :: g : List Char)
          = ('-' :: g).map (fun x => if x = ',' then '.' else x)
        from (map_char_id '.' hcomma).symm]
      simp
  · rw [if_neg hneg]
    rw [List.nil_append, pySplit_two hdotg hdotd]
    dsimp only
    by_cases hcomma : ',' ∈ g
    · rw [if_pos hcomma, pyReplace_map_char]
      simp
    · rw [if_neg hcomma, map_char_id '.' hcomma]
      simp

end SepaBrl

namespace SepaBrl

theorem comma_not_mem_map_swap (s : List Char) :
    ',' ∉ s.map (fun x => if x = ',' then '.' else x) := by
  intro h
  rcases List.mem_map.mp h with ⟨x, hx, hex⟩
  by_cases hc : x = ','
  · rw [if_pos hc] at hex
    exact absurd hex (by decide)
  · rw [if_neg hc] at hex
    exact hc hex

theorem map_swap_chars {m : Nat} {c : Char}
    (h : c ∈ (groupThousands (natChars m)).map (fun x => if x = ',' then '.' else x)) :
    c = '.' ∨ c.isDigit = true := by
  rcases List.mem_map.mp h with ⟨y, hy, hey⟩
  rcases mem_groupThousands hy with h1 | h1
  · subst h1
    rw [if_pos rfl] at hey
    exact Or.inl hey.symm
  · have hd := (natChars_spec m).2.2 y h1
    by_cases hyc : y = ','
    · subst hyc
      exact absurd hd (by decide)
    · rw [if_neg hyc] at hey
      exact Or.inr (hey ▸ hd)

theorem filter_map_swap {s : List Char} (h : '.' ∉ s) :
    (s.map (fun x => if x = ',' then '.' else x)).filter (fun x => x ≠ '.')
      = s.filter (fun x => x ≠ ',') := by
  induction s with
  | nil => rfl
  | cons c rest ih =>
    have hc : ¬c = '.' := fun hcc => h (hcc ▸ List.mem_cons_self _ _)
    have hrest : '.' ∉ rest := fun hr => h (List.mem_cons_of_mem c hr)
    simp only [List.map_cons]
    by_cases hcm : c = ','
    · rw [if_pos hcm]
      rw [List.filter_cons_of_neg (by simp), List.filter_cons_of_neg (by simp [hcm])]
      exact ih hrest
    · rw [if_neg hcm]
      rw [List.filter_cons_of_pos (by simp [hc]), List.filter_cons_of_pos (by simp [hcm])]
      rw [ih hrest]

theorem pyReplace_strip_RS {u : List Char} (h : 'R' ∉ u) :
    pyReplace ('R' :: '$' :: u) ['R', '$'] [] = u := by
  unfold pyReplace
  rw [if_neg (by simp)]
  show pyReplaceAux ['R', '$'] [] (u.length + 1 + 1) ('R' :: '$' :: u) = u
  rw [pyReplaceAux]
  rw [if_pos (by simp [List.isPrefixOf])]
  simp only [List.nil_append, List.length_cons, List.length_nil]
  norm_num
  exact pyReplaceAux_no_occurrence 'R' ['$'] [] (u.length + 1) u h

end SepaBrl

namespace SepaBrl

theorem parse_of_rendered (neg : Bool) (a : ℕ) :
    parse_currency_brl ("R$ ".data ++
      ((if neg = true then ['-'] else []) ++
        (groupThousands (natChars (a / 100))).map (fun c => if c = ',' then '.' else c) ++
        ',' :: [digitChar (a / 10 % 10), digitChar (a % 10)]))
      = .ok (.num ((if neg = true then (-1 : ℚ) else 1) * ((a : ℚ) / 100))) := by
  set sg : List Char := if neg = true then ['-'] else [] with hsg
  set mg : List Char :=
    (groupThousands (natChars (a / 100))).map (fun c => if c = ',' then '.' else c) with hmg
  set d2 : List Char := [digitChar (a / 10 % 10), digitChar (a % 10)] with hd2
  have hsgc : ∀ c ∈ sg, c = '-' := by
    rw [hsg]
    cases neg <;> simp
  have hd2dig : ∀ c ∈ d2, c.isDigit = true := by
    intro c hc
    rw [hd2] at hc
    rcases List.mem_cons.mp hc with h | hc2
    · rw [h]; exact digitChar_isDigit _
    · rcases List.mem_cons.mp hc2 with h | h3
      · rw [h]; exact digitChar_isDigit _
      · cases h3
  have hbody : ∀ c ∈ (sg ++ mg) ++ ',' :: d2,
      c = '-' ∨ c = '.' ∨ c = ',' ∨ c.isDigit = true := by
    intro c hc
    rcases List.mem_append.mp hc with h | h
    · rcases List.mem_append.mp h with h1 | h1
      · exact Or.inl (hsgc c h1)
      · rcases map_swap_chars (hmg ▸ h1) with h2 | h2
        · exact Or.inr (Or.inl h2)
        · exact Or.inr (Or.inr (Or.inr h2))
    · rcases List.mem_cons.mp h with h2 | h2
      · exact Or.inr (Or.inr (Or.inl h2))
      · exact Or.inr (Or.inr (Or.inr (hd2dig c h2)))
  have hR : 'R' ∉ ' ' :: ((sg ++ mg) ++ ',' :: d2) := by
    intro hmem
    rcases List.mem_cons.mp hmem with h | h
    · exact absurd h (by decide)
    · rcases hbody 'R' h with h | h | h | h <;> exact absurd h (by decide)
  have hnospace : ∀ c ∈ (sg ++ mg) ++ ',' :: d2, ¬c = ' ' := by
    intro c hc hce
    subst hce
    rcases hbody ' ' hc with h | h | h | h <;> exact absurd h (by decide)
  unfold parse_currency_brl
  rw [if_neg (by simp)]
  dsimp only
  rw [show (['R', '$', ' '] ++ ((sg ++ mg) ++ ',' :: d2) : List Char)
      = 'R' :: '$' :: ' ' :: ((sg ++ mg) ++ ',' :: d2) from rfl]
  rw [pyReplace_strip_RS hR]
  rw [pyReplace_delete_char]
  rw [List.filter_cons_of_neg (by simp)]
  rw [List.filter_eq_self.mpr (fun c hc => by simpa using hnospace c hc)]
  rw [if_pos (by simp)]
  rw [rsplitComma_spec (by
    intro hmem
    exact absurd (hd2dig ',' hmem) (by decide))]
  dsimp only
  rw [pyReplace_delete_char]
  rw [List.filter_append]
  rw [List.filter_eq_self.mpr (fun c hc => by
    simp only [decide_eq_true_eq, ne_eq]
    rw [hsgc c hc]
    decide)]
  rw [hmg, filter_map_swap (dot_not_mem_group (a / 100))]
  rw [groupThousands_filter (fun c hc hceq => by
    have hd := (natChars_spec (a / 100)).2.2 c hc
    rw [hceq] at hd
    exact absurd hd (by decide))]
  rw [hsg]
  rw [pyDecimalOfString_digits neg (natChars (a / 100)) d2
    (natChars_spec (a / 100)).2.1 (natChars_spec (a / 100)).2.2
    (by rw [hd2]; simp) hd2dig]
  dsimp only
  have hlv : listVal d2 = a % 100 := by
    rw [hd2]
    unfold listVal
    simp only [List.foldl]
    rw [digitVal_digitChar (Nat.mod_lt _ (by norm_num)),
      digitVal_digitChar (Nat.mod_lt _ (by norm_num))]
    omega
  have hlen : d2.length = 2 := by
    rw [hd2]
    rfl
  rw [hlv, hlen, (natChars_spec (a / 100)).1]
  have key : ((a / 100 : ℕ) : ℚ) + ((a % 100 : ℕ) : ℚ) / 10 ^ (2 : ℕ) = (a : ℚ) / 100 := by
    have h2 : ((10 : ℚ) ^ (2 : ℕ)) = 100 := by norm_num
    rw [h2, eq_div_iff (by norm_num : (100 : ℚ) ≠ 0), add_mul,
      div_mul_cancel₀ _ (by norm_num : (100 : ℚ) ≠ 0)]
    exact_mod_cast (by omega : a / 100 * 100 + a % 100 = a)
  rw [key]

end SepaBrl


namespace SepaBrl

theorem format_parse_core (n : ℤ) (hb : |n| ≤ 10 ^ 15) :
    parse_currency_brl (format_currency_brl ((n : ℚ) / 100)) = .ok (.num ((n : ℚ) / 100)) := by
  obtain ⟨hrhe, hsign⟩ := roundHalfEven_centavos hb
  rw [format_currency_eq, hrhe]
  by_cases hneg : n < 0
  · rw [if_pos (hsign.mpr hneg)]
    have h := parse_of_rendered true n.natAbs
    simp only [if_pos, eq_self_iff_true, if_true] at h
    rw [h]
    have habs : ((n.natAbs : ℚ)) = -(n : ℚ) := by
      rw [Int.cast_natAbs, abs_of_neg hneg, Int.cast_neg]
    rw [habs]
    simp only [Except.ok.injEq, PyDec.num.injEq]
    ring
  · rw [if_neg (fun hf => hneg (hsign.mp hf)), List.nil_append]
    have h := parse_of_rendered false n.natAbs
    simp only [Bool.false_eq_true, if_false, List.nil_append] at h
    rw [h]
    have habs : ((n.natAbs : ℚ)) = (n : ℚ) := by
      rw [Int.cast_natAbs, abs_of_nonneg (not_lt.mp hneg)]
    rw [habs]
    simp only [Except.ok.injEq, PyDec.num.injEq]
    ring

end SepaBrl

namespace SepaBrl

theorem floatRound_big : floatRound ((10 ^ 18 + 1 : ℚ) / 100) = 10 ^ 16 := by
  have hlog : Int.log 2 |(10 ^ 18 + 1 : ℚ) / 100| = 53 := by
    rw [abs_of_pos (by norm_num)]
    have h1 : ((2 : ℚ) ^ (53 : ℤ)) ≤ (10 ^ 18 + 1 : ℚ) / 100 := by
      rw [show ((53 : ℤ)) = ((53 : ℕ) : ℤ) from rfl, zpow_natCast]
      norm_num
    have h2 : ((10 ^ 18 + 1 : ℚ) / 100) < (2 : ℚ) ^ (54 : ℤ) := by
      rw [show ((54 : ℤ)) = ((54 : ℕ) : ℤ) from rfl, zpow_natCast]
      norm_num
    have hb2 : (1 : ℕ) < 2 := one_lt_two
    have hr : (0 : ℚ) < (10 ^ 18 + 1 : ℚ) / 100 := by norm_num
    have hle := (Int.zpow_le_iff_le_log hb2 hr).mp h1
    have hlt := (Int.lt_zpow_iff_log_lt hb2 hr).mp h2
    omega
  unfold floatRound
  rw [if_neg (by norm_num), hlog]
  dsimp only
  rw [show ((52 : ℤ) - 53) = -1 from by norm_num, show ((53 : ℤ) - 52) = 1 from by norm_num,
    zpow_neg_one, zpow_one]
  rw [show ((10 ^ 18 + 1 : ℚ) / 100) * (2 : ℚ)⁻¹ = (10 ^ 18 + 1) / 200 from by ring]
  rw [roundHalfEven_eq_of_abs_lt (show |((10 ^ 18 + 1 : ℚ) / 200) - ((5 * 10 ^ 15 : ℤ) : ℚ)| < 1 / 2 from by
    rw [abs_lt]
    constructor <;> push_cast <;> norm_num)]
  push_cast
  norm_num

end SepaBrl

namespace SepaBrl

/-- C1: the round-trip `parse_currency_brl (format_currency_brl x) = x` does
not hold for every amount with at most two fraction digits: at
`x = 10^16 + 0.01 = (10^18 + 1)/100` the float conversion inside
`format_currency_brl` rounds the value to `10^16`, the rendered text reads
`R$ 10.000.000.000.000.000,00`, and parsing it back returns `10^16 ≠ x`. -/
theorem parse_format_roundtrip_cex :
    parse_currency_brl (format_currency_brl ((10 ^ 18 + 1 : ℚ) / 100))
        = .ok (.num (10 ^ 16 : ℚ))
    ∧ (10 ^ 18 + 1 : ℚ) / 100 ≠ (10 ^ 16 : ℚ) := by
  constructor
  · rw [format_currency_eq, floatRound_big]
    rw [show roundHalfEven (100 * (10 ^ 16 : ℚ)) = ((10 ^ 18 : ℤ)) from
      roundHalfEven_eq_of_abs_lt (by
        rw [abs_lt]
        constructor <;> push_cast <;> norm_num)]
    rw [show ((10 ^ 18 : ℤ)).natAbs = (10 ^ 18 : ℕ) from by
      rw [Int.natAbs_pow]
      norm_num]
    rw [if_neg (by norm_num), List.nil_append]
    have h := parse_of_rendered false (10 ^ 18)
    simp only [Bool.false_eq_true, if_false, List.nil_append] at h
    rw [h]
    simp only [Except.ok.injEq, PyDec.num.injEq]
    push_cast
    norm_num
  · norm_num

end SepaBrl

namespace SepaBrl

/-- C1 (amended): for every amount `x = n/100` with at most two fraction digits
whose value in cents satisfies `|n| ≤ 10^15` (so `|x| ≤ 10^13`, far below the
`2^53` float precision boundary), parsing the formatted text returns exactly
`x`, including `x = 0.00`. -/
theorem parse_format_roundtrip_bounded (x : ℚ) (n : ℤ)
    (hx : x = (n : ℚ) / 100) (hb : |n| ≤ 10 ^ 15) :
    parse_currency_brl (format_currency_brl x) = .ok (.num x) := by
  subst hx
  exact format_parse_core n hb

theorem parse_format_roundtrip_bounded_witness :
    ((123456 : ℚ) / 100 = ((123456 : ℤ) : ℚ) / 100) ∧ |(123456 : ℤ)| ≤ 10 ^ 15 ∧
      parse_currency_brl (format_currency_brl ((123456 : ℚ) / 100))
        = .ok (.num ((123456 : ℚ) / 100)) :=
  ⟨by norm_num, by norm_num,
    parse_format_roundtrip_bounded ((123456 : ℚ) / 100) 123456 (by norm_num) (by norm_num)⟩

end SepaBrl
